import Mathlib

/-!
Verification of the openproject_megaplan_sync repository.

This file gives a shallow embedding of the core of the synchronizer
(services/sync.py, services/mapping_store.py, services/task_mapper.py and
the relevant caller in cli.py) and proves properties of that embedding.

Modelling conventions, used throughout:
* Python dictionaries coming from JSON are modelled by the inductive type
  RawVal; dict lookup, Python truthiness and the str()/int() coercions are
  modelled by RawVal.get, RawVal.truthy, pyStr and pyToInt.
* The two HTTP clients (MegaplanClient, OpenProjectClient) are external
  collaborators.  They are modelled by an Env record of pure functions,
  one per client method used by the core; a non-2xx response is the
  value Except.error (matching the RemoteError exceptions both clients
  raise).  Responses are modelled by the fields the core actually reads
  (for example create_work_package responses by their integer id).
* The SQLite MappingStore is modelled by in-memory association lists
  inside the state St; each table row is (key, (openproject_id, synced_at)).
* datetime.utcnow() is modelled by a counter in St that every utcnow call
  reads and then increments, so successive calls return strictly
  increasing times.
* Timestamps produced by dateutil parsing are kept as their source strings;
  a date() .isoformat() projection is modelled by taking the prefix of the
  ISO string before the character T.
-/

namespace OMSync

/-- Association list lookup, first entry whose key matches wins.  Models a
lookup in a Python dict and a SELECT by primary key in the MappingStore. -/
def lookupA {α : Type} : List (String × α) → String → Option α
  | [], _ => none
  | (k, v) :: rest, key => if k = key then some v else lookupA rest key

/-- Association list upsert: replaces the value in place if the key is
present, otherwise appends the pair at the end.  This is both the SQLite
ON CONFLICT DO UPDATE upsert of MappingStore._upsert and insertion into a
Python dict (which keeps the position of an existing key). -/
def upsertA {α : Type} : List (String × α) → String → α → List (String × α)
  | [], key, v => [(key, v)]
  | (k, w) :: rest, key, v =>
      if k = key then (k, v) :: rest else (k, w) :: upsertA rest key v

/-- Raw JSON-like value as delivered by either remote API. -/
inductive RawVal where
  | null
  | str (s : String)
  | int (n : Int)
  | dict (fields : List (String × RawVal))
deriving Inhabited

/-- Python truthiness of a raw value: None, empty string, zero and the
empty dict are falsy. -/
def RawVal.truthy : RawVal → Bool
  | .null => false
  | .str s => s != ""
  | .int n => n != 0
  | .dict l => !l.isEmpty

/-- Python dict .get(key): None when the key is absent.  The source only
ever applies .get to JSON objects, so the non-dict case is unreachable
there; it is mapped to None. -/
def RawVal.get : RawVal → String → RawVal
  | .dict l, key => (lookupA l key).getD .null
  | _, _ => .null

/-- Python dict .get(key, default). -/
def RawVal.getD : RawVal → String → RawVal → RawVal
  | .dict l, key, dflt => (lookupA l key).getD dflt
  | _, _, dflt => dflt

/-- Python key containment test (the expression key in payload). -/
def RawVal.hasKey : RawVal → String → Bool
  | .dict l, key => (lookupA l key).isSome
  | _, _ => false

/-- Python expression a or b. -/
def pyOr (a b : RawVal) : RawVal := if a.truthy then a else b

/-- Python str() on the raw values the mapper applies it to: str of None is
the string None; str of a dict is not exercised by the source payload
shapes and is mapped to the empty string. -/
def pyStr : RawVal → String
  | .null => "None"
  | .str s => s
  | .int n => toString n
  | .dict _ => ""

/-- Python int() on the raw values the mapper applies it to; int() of a
non-numeric string raises in Python and is not exercised by the source
payload shapes, it is mapped to 0. -/
def pyToInt : RawVal → Int
  | .int n => n
  | .str s => (s.toInt?).getD 0
  | _ => 0

/-- Canonical comment (models/entities.py Comment).  The source stores the
ingestion time for a missing created_at; the model keeps none for it, no
claim depends on that field. -/
structure Comment where
  id : String
  author_id : Option String
  body : String
  created_at : Option String
deriving Repr, DecidableEq, Inhabited

/-- Canonical attachment (models/entities.py Attachment). -/
structure Attachment where
  id : String
  filename : String
  size : Int
  download_url : String
deriving Repr, DecidableEq, Inhabited

/-- Canonical task (models/entities.py Task).  Timestamp fields keep their
source strings, see the module conventions. -/
structure Task where
  id : String
  project_id : String
  name : String
  description : String
  status : String
  author_id : Option String := none
  assignee_id : Option String := none
  parent_id : Option String := none
  created_at : Option String := none
  updated_at : Option String := none
  start_date : Option String := none
  due_date : Option String := none
  comments : List Comment := []
  attachments : List Attachment := []
deriving Repr, DecidableEq, Inhabited

/-- Project mapping pair (config.py ProjectMapping). -/
structure ProjectMapping where
  megaplan_id : String
  openproject_id : Int
  include_closed : Bool := false
deriving Repr, DecidableEq, Inhabited

/-- Sync options (config.py SyncOptions).  attachment_max_mb is a float in
the source; it is modelled by a rational, exact for every configured
value. -/
structure SyncOptions where
  page_size : Nat := 100
  attachment_max_mb : ℚ := 200
  sync_attachments : Bool := true
  sync_comments : Bool := true
  dry_run : Bool := false
  tmp_dir : String := ".sync_tmp"
deriving Repr, DecidableEq, Inhabited

/-- OpenProject settings consumed by the core (config.py
OpenProjectCredentials); the connection fields live inside the HTTP
client, which is modelled as the environment. -/
structure OpenProjectSettings where
  default_user_id : Option Int := none
deriving Repr, DecidableEq, Inhabited

/-- Application configuration as consumed by TaskSyncService. -/
structure AppConfig where
  openproject : OpenProjectSettings
  projects : List ProjectMapping
  sync : SyncOptions
deriving Repr, DecidableEq, Inhabited

/-- Datetime parsing in TaskMapper._parse_datetime: a falsy value yields
None, otherwise dateutil parses the string (modelled as keeping it). -/
def parseDatetime (v : RawVal) : Option String :=
  if v.truthy then some (pyStr v) else none

/-- Date part of an ISO timestamp, modelling .date().isoformat(). -/
def dateOnly (s : String) : String := s.takeWhile (fun c => c ≠ 'T')

/-- Field extraction prelude of TaskMapper.map_task: payload.get("data")
if "data" in payload else payload. -/
def extractFields (payload : RawVal) : RawVal :=
  if payload.hasKey "data" then payload.get "data" else payload

/-- Translation of one raw task payload, TaskMapper.map_task. -/
def mapTask (payload : RawVal) : Task :=
  let fields := extractFields payload
  let task_id := pyStr (pyOr (fields.get "id") (fields.get "TaskId"))
  let nameV := pyOr (fields.get "name") (pyOr (fields.get "Name") (fields.get "title"))
  let descV := pyOr (fields.get "description") (pyOr (fields.get "Description") (.str ""))
  let statusV := pyOr (fields.get "status") (pyOr (fields.get "Status") (.str "unknown"))
  let projV := pyOr (fields.get "project_id") (pyOr (fields.get "Project")
      (pyOr ((fields.getD "project" (.dict [])).get "id") (.str "")))
  let authorV := pyOr (fields.get "author_id") (fields.get "Author")
  let assigneeV := pyOr (fields.get "responsible_id") (fields.get "Responsible")
  let parentV := pyOr (fields.get "parent_id") (fields.get "ParentTask")
  { id := task_id
    project_id := pyStr projV
    name := if nameV.truthy then pyStr nameV else "Task " ++ task_id
    description := pyStr descV
    status := pyStr statusV
    author_id := if authorV.truthy then some (pyStr authorV) else none
    assignee_id := if assigneeV.truthy then some (pyStr assigneeV) else none
    parent_id := if parentV.truthy then some (pyStr parentV) else none
    created_at := parseDatetime (pyOr (fields.get "created_at") (fields.get "CreatedAt"))
    updated_at := parseDatetime (pyOr (fields.get "updated_at") (fields.get "UpdatedAt"))
    start_date := parseDatetime (pyOr (fields.get "start_date") (fields.get "StartDate"))
    due_date := parseDatetime (pyOr (fields.get "due_date") (fields.get "FinishDate")) }

/-- Translation of one raw comment payload, TaskMapper.map_comment. -/
def mapComment (payload : RawVal) : Comment :=
  let comment_id := pyStr (pyOr (payload.get "id") (payload.get "CommentId"))
  let authorV := pyOr (payload.get "author_id") (payload.get "Author")
  { id := comment_id
    author_id := if authorV.truthy then some (pyStr authorV) else none
    body := pyStr (pyOr (payload.get "text") (pyOr (payload.get "Body") (.str "")))
    created_at := parseDatetime (pyOr (payload.get "created_at") (payload.get "CreatedAt")) }

/-- Translation of one raw attachment payload, TaskMapper.map_attachment. -/
def mapAttachment (payload : RawVal) : Attachment :=
  let attachment_id := pyStr (pyOr (payload.get "id") (payload.get "FileId"))
  { id := attachment_id
    filename := pyStr (pyOr (payload.get "name") (pyOr (payload.get "FileName") (.str attachment_id)))
    size := pyToInt (pyOr (payload.get "size") (pyOr (payload.get "FileSize") (.int 0)))
    download_url := pyStr (pyOr (payload.get "download_url") (pyOr (payload.get "DownloadUrl") (.str ""))) }

/-- Modelled from claim C9 as stated: the name field read by trying the
snake-cased key, then the legacy camel-cased key, first present key
winning, with a missing name yielding Task id. -/
def claimC9Name (fields : RawVal) (task_id : String) : String :=
  if fields.hasKey "name" then pyStr (fields.get "name")
  else if fields.hasKey "Name" then pyStr (fields.get "Name")
  else "Task " ++ task_id

/-- First candidate key with a truthy value wins, otherwise the default:
the data-driven extraction the amended claim C9 describes. -/
def firstTruthyKey (fields : RawVal) (candidates : List String) (dflt : String) : String :=
  match candidates with
  | [] => dflt
  | k :: rest => if (fields.get k).truthy then pyStr (fields.get k) else firstTruthyKey fields rest dflt

/-- Number of keys of the batch not yet visited; the termination measure
of the depth-first traversal below. -/
def unvisitedCount (tasks : List (String × Task)) (visited : List String) : Nat :=
  ((tasks.map Prod.fst).filter (fun k => decide (k ∉ visited))).length

theorem lookupA_isSome_iff_mem {α : Type} (l : List (String × α)) (k : String) :
    (lookupA l k).isSome ↔ k ∈ l.map Prod.fst := by
  induction l with
  | nil => simp [lookupA]
  | cons kv rest ih =>
    obtain ⟨k', v⟩ := kv
    by_cases h : k' = k
    · subst h; simp [lookupA]
    · simp only [lookupA, if_neg h, List.map_cons, List.mem_cons, ih]
      constructor
      · exact fun hm => Or.inr hm
      · rintro (rfl | hm)
        · exact absurd rfl h
        · exact hm

theorem length_filter_mono {α : Type} (l : List α) (p q : α → Bool)
    (h : ∀ x ∈ l, p x = true → q x = true) :
    (l.filter p).length ≤ (l.filter q).length := by
  induction l with
  | nil => simp
  | cons a rest ih =>
    have hrest : ∀ x ∈ rest, p x = true → q x = true := fun x hx => h x (by simp [hx])
    by_cases hp : p a = true
    · have hq := h a (by simp) hp
      simp only [List.filter_cons, hp, hq, if_true, List.length_cons]
      exact Nat.succ_le_succ (ih hrest)
    · simp only [List.filter_cons, hp, if_false]
      by_cases hq : q a = true
      · simp only [hq, if_true, List.length_cons]
        exact Nat.le_succ_of_le (ih hrest)
      · simp only [hq, if_false]
        exact ih hrest

theorem unvisited_lt_aux (visited : List String) (id : String) (hv : id ∉ visited) :
    ∀ keys : List String, id ∈ keys →
      (keys.filter (fun k => decide (k ∉ id :: visited))).length <
        (keys.filter (fun k => decide (k ∉ visited))).length := by
  intro keys
  induction keys with
  | nil => intro hk; cases hk
  | cons a rest ih =>
    intro hk
    by_cases ha : a = id
    · subst ha
      have h1 : (decide (a ∉ a :: visited)) = false := by simp
      have h2 : (decide (a ∉ visited)) = true := by simpa using hv
      simp only [List.filter_cons, h1, h2, if_true, Bool.false_eq_true, if_false, List.length_cons]
      have hmono : (rest.filter (fun k => decide (k ∉ a :: visited))).length ≤
          (rest.filter (fun k => decide (k ∉ visited))).length := by
        apply length_filter_mono
        intro x _ hx
        simp only [decide_eq_true_eq] at hx ⊢
        exact fun hxv => hx (by simp [hxv])
      omega
    · have hk' : id ∈ rest := by
        rcases List.mem_cons.mp hk with h | h
        · exact absurd h.symm ha
        · exact h
      have heq : (decide (a ∉ id :: visited)) = (decide (a ∉ visited)) := by
        by_cases hav : a ∈ visited <;> simp [hav, ha]
      by_cases hav : a ∈ visited
      · have hf : (decide (a ∉ visited)) = false := by simpa using hav
        simp only [List.filter_cons, heq, hf, Bool.false_eq_true, if_false]
        exact ih hk'
      · have ht : (decide (a ∉ visited)) = true := by simpa using hav
        simp only [List.filter_cons, heq, ht, if_true, List.length_cons]
        exact Nat.succ_lt_succ (ih hk')

/-- Depth-first visit of TaskSyncService._order_tasks: mark the node
visited, recurse into the parent when it is truthy and present in the
batch, then append the node.  The none branch of the lookup is
unreachable because visit is only invoked on keys of the batch. -/
def visit (tasks : List (String × Task)) (id : String) (visited : List String)
    (ordered : List Task) : List String × List Task :=
  if id ∈ visited then (visited, ordered)
  else
    match h : lookupA tasks id with
    | none => (id :: visited, ordered)
    | some task =>
      let step : List String × List Task :=
        match task.parent_id with
        | some pid =>
          if pid ≠ "" ∧ (lookupA tasks pid).isSome then visit tasks pid (id :: visited) ordered
          else (id :: visited, ordered)
        | none => (id :: visited, ordered)
      (step.1, step.2 ++ [task])
termination_by unvisitedCount tasks visited
decreasing_by
  simp only [unvisitedCount]
  exact unvisited_lt_aux visited id (by assumption) (tasks.map Prod.fst)
    ((lookupA_isSome_iff_mem tasks id).mp (by rw [h]; rfl))

/-- Processing order of TaskSyncService._order_tasks: seed the visit from
every key of the batch in insertion order. -/
def orderTasks (tasks : List (String × Task)) : List Task :=
  ((tasks.map Prod.fst).foldl (fun acc id => visit tasks id acc.1 acc.2) ([], [])).2

/-- Value stored in the batch at a key (total, defaulting). -/
def taskAt (tasks : List (String × Task)) (k : String) : Task :=
  (lookupA tasks k).getD default

theorem taskAt_eq {tasks : List (String × Task)} {k : String} {t : Task}
    (h : lookupA tasks k = some t) : taskAt tasks k = t := by
  simp [taskAt, h]

theorem lookupA_some_mem {α : Type} {l : List (String × α)} {k : String} {v : α}
    (h : lookupA l k = some v) : (k, v) ∈ l := by
  induction l with
  | nil => simp [lookupA] at h
  | cons kv rest ih =>
    obtain ⟨k', w⟩ := kv
    by_cases hk : k' = k
    · subst hk
      simp [lookupA] at h
      simp [h]
    · simp only [lookupA, if_neg hk] at h
      exact List.mem_cons_of_mem _ (ih h)

theorem visit_eq_vis {tasks : List (String × Task)} {id : String} {visited : List String}
    {ordered : List Task} (hvis : id ∈ visited) :
    visit tasks id visited ordered = (visited, ordered) := by
  rw [visit]; simp [hvis]

theorem visit_eq_some {tasks : List (String × Task)} {id : String} {visited : List String}
    {ordered : List Task} {task : Task} (hvis : id ∉ visited)
    (htask : lookupA tasks id = some task) :
    visit tasks id visited ordered =
      (match task.parent_id with
       | some pid =>
         if pid ≠ "" ∧ (lookupA tasks pid).isSome then
           ((visit tasks pid (id :: visited) ordered).1,
            (visit tasks pid (id :: visited) ordered).2 ++ [task])
         else (id :: visited, ordered ++ [task])
       | none => (id :: visited, ordered ++ [task])) := by
  rw [visit]
  rw [if_neg hvis]
  split
  · next heq => rw [htask] at heq; cases heq
  · next t heq =>
    rw [htask] at heq
    injection heq with h2
    subst h2
    cases hp : task.parent_id with
    | none => simp [hp]
    | some pid =>
      by_cases hcond : pid ≠ "" ∧ (lookupA tasks pid).isSome
      · simp [hp, hcond]
      · simp [hp, hcond]

/-- Every visited key whose task is parentless has its task already
emitted. -/
def rootsPlaced (tasks : List (String × Task)) (visited : List String)
    (ordered : List Task) : Prop :=
  ∀ k ∈ visited, (taskAt tasks k).parent_id = none → taskAt tasks k ∈ ordered

/-- Every emitted task whose parent is a parentless in-batch task appears
after that parent. -/
def parentOrdered (tasks : List (String × Task)) (ordered : List Task) : Prop :=
  ∀ t ∈ ordered, ∀ pid, t.parent_id = some pid → pid ≠ "" → pid ∈ tasks.map Prod.fst →
    (taskAt tasks pid).parent_id = none → [taskAt tasks pid, t].Sublist ordered

/-- Full characterization of one visit call, relative to the incoming
visited set and ordered output. -/
def VisitSpec (tasks : List (String × Task)) (id : String) (visited : List String)
    (ordered : List Task) : Prop :=
  ∃ dv dO,
    (visit tasks id visited ordered).1 = dv ++ visited ∧
    (visit tasks id visited ordered).2 = ordered ++ dO ∧
    dv.Nodup ∧
    (∀ x ∈ dv, x ∈ tasks.map Prod.fst ∧ x ∉ visited) ∧
    dO.Perm (dv.map (taskAt tasks)) ∧
    id ∈ (visit tasks id visited ordered).1 ∧
    (rootsPlaced tasks visited ordered →
      rootsPlaced tasks (visit tasks id visited ordered).1 (visit tasks id visited ordered).2) ∧
    (rootsPlaced tasks visited ordered → parentOrdered tasks ordered →
      parentOrdered tasks (visit tasks id visited ordered).2)

theorem visit_spec (tasks : List (String × Task)) :
    ∀ id visited ordered, id ∈ tasks.map Prod.fst → VisitSpec tasks id visited ordered := by
  apply visit.induct tasks
    (motive := fun id visited ordered => id ∈ tasks.map Prod.fst → VisitSpec tasks id visited ordered)
  case case1 =>
    intro id visited ordered hvis _
    have hv : visit tasks id visited ordered = (visited, ordered) := visit_eq_vis hvis
    refine ⟨[], [], ?_, ?_, ?_, ?_, ?_, ?_, ?_, ?_⟩ <;> simp [hv, hvis]
  case case2 =>
    intro id visited ordered hvis hnone hmem
    exact absurd ((lookupA_isSome_iff_mem tasks id).mpr hmem) (by simp [hnone])
  case case3 =>
    intro id visited ordered hvis task htask ih hmem
    have htA : taskAt tasks id = task := taskAt_eq htask
    cases hp : task.parent_id with
    | none =>
      have hv : visit tasks id visited ordered = (id :: visited, ordered ++ [task]) := by
        rw [visit_eq_some hvis htask, hp]
      refine ⟨[id], [task], by simp [hv], by simp [hv], by simp, ?_, ?_, by simp [hv], ?_, ?_⟩
      · intro x hx
        simp only [List.mem_singleton] at hx
        subst hx
        exact ⟨hmem, hvis⟩
      · simp [htA]
      · intro R0
        rw [hv]
        intro k hk hpl
        rcases List.mem_cons.mp hk with rfl | hk2
        · exact List.mem_append_right _ (by simp [htA])
        · exact List.mem_append_left _ (R0 k hk2 hpl)
      · intro R0 P0
        rw [hv]
        intro t ht pid hpid hne hmemk hplroot
        rcases List.mem_append.mp ht with ht1 | ht2
        · exact (P0 t ht1 pid hpid hne hmemk hplroot).trans (List.sublist_append_left _ _)
        · simp only [List.mem_singleton] at ht2
          subst ht2
          rw [hp] at hpid
          cases hpid
    | some pid =>
      by_cases hcond : pid ≠ "" ∧ (lookupA tasks pid).isSome
      · have hpidmem : pid ∈ tasks.map Prod.fst := (lookupA_isSome_iff_mem tasks pid).mp hcond.2
        have hv : visit tasks id visited ordered =
            ((visit tasks pid (id :: visited) ordered).1,
             (visit tasks pid (id :: visited) ordered).2 ++ [task]) := by
          rw [visit_eq_some hvis htask, hp]
          simp [hcond]
        obtain ⟨dv, dO, h1, h2, hnd, hdom, hperm, hidm, hinv1, hinv2⟩ := ih pid hpidmem
        have R1 : rootsPlaced tasks visited ordered →
            rootsPlaced tasks (id :: visited) ordered := by
          intro R0 k hk hpl
          rcases List.mem_cons.mp hk with rfl | hk2
          · rw [htA, hp] at hpl
            cases hpl
          · exact R0 k hk2 hpl
        refine ⟨dv ++ [id], dO ++ [task], ?_, ?_, ?_, ?_, ?_, ?_, ?_, ?_⟩
        · rw [hv]
          show (visit tasks pid (id :: visited) ordered).1 = (dv ++ [id]) ++ visited
          rw [h1, List.append_assoc, List.singleton_append]
        · rw [hv]
          show (visit tasks pid (id :: visited) ordered).2 ++ [task] = ordered ++ (dO ++ [task])
          rw [h2, List.append_assoc]
        · refine List.Nodup.append hnd (List.nodup_singleton id) ?_
          intro a ha hb
          simp only [List.mem_singleton] at hb
          subst hb
          exact ((hdom a ha).2) (List.mem_cons_self _ _)
        · intro x hx
          rcases List.mem_append.mp hx with hx1 | hx2
          · obtain ⟨hxk, hxv⟩ := hdom x hx1
            exact ⟨hxk, fun hc => hxv (List.mem_cons_of_mem _ hc)⟩
          · simp only [List.mem_singleton] at hx2
            subst hx2
            exact ⟨hmem, hvis⟩
        · rw [List.map_append]
          refine List.Perm.append hperm ?_
          simp [htA]
        · rw [hv]
          show id ∈ (visit tasks pid (id :: visited) ordered).1
          rw [h1]
          exact List.mem_append_right _ (List.mem_cons_self _ _)
        · intro R0
          rw [hv]
          intro k hk hpl
          exact List.mem_append_left _ (hinv1 (R1 R0) k hk hpl)
        · intro R0 P0
          rw [hv]
          intro t ht pid2 hpid2 hne2 hmemk2 hplroot2
          rcases List.mem_append.mp ht with ht1 | ht2
          · exact (hinv2 (R1 R0) P0 t ht1 pid2 hpid2 hne2 hmemk2 hplroot2).trans
              (List.sublist_append_left _ _)
          · simp only [List.mem_singleton] at ht2
            subst ht2
            rw [hp] at hpid2
            injection hpid2 with hpe
            subst hpe
            have hin2 : taskAt tasks pid ∈ (visit tasks pid (id :: visited) ordered).2 :=
              hinv1 (R1 R0) pid hidm hplroot2
            have hsub : List.Sublist ([taskAt tasks pid] ++ [t])
                ((visit tasks pid (id :: visited) ordered).2 ++ [t]) :=
              List.Sublist.append (List.singleton_sublist.mpr hin2) (List.Sublist.refl _)
            simpa using hsub
      · have hv : visit tasks id visited ordered = (id :: visited, ordered ++ [task]) := by
          rw [visit_eq_some hvis htask, hp]
          simp [hcond]
        refine ⟨[id], [task], by simp [hv], by simp [hv], by simp, ?_, ?_, by simp [hv], ?_, ?_⟩
        · intro x hx
          simp only [List.mem_singleton] at hx
          subst hx
          exact ⟨hmem, hvis⟩
        · simp [htA]
        · intro R0
          rw [hv]
          intro k hk hpl
          rcases List.mem_cons.mp hk with rfl | hk2
          · exact List.mem_append_right _ (by simp [htA])
          · exact List.mem_append_left _ (R0 k hk2 hpl)
        · intro R0 P0
          rw [hv]
          intro t ht pid2 hpid2 hne2 hmemk2 hplroot2
          rcases List.mem_append.mp ht with ht1 | ht2
          · exact (P0 t ht1 pid2 hpid2 hne2 hmemk2 hplroot2).trans (List.sublist_append_left _ _)
          · simp only [List.mem_singleton] at ht2
            subst ht2
            rw [hp] at hpid2
            injection hpid2 with hpe
            subst hpe
            exact absurd ⟨hne2, (lookupA_isSome_iff_mem tasks pid).mpr hmemk2⟩ hcond

theorem foldVisit_spec (tasks : List (String × Task)) :
    ∀ ids : List String, (∀ i ∈ ids, i ∈ tasks.map Prod.fst) →
    ∀ visited ordered,
      visited.Nodup → (∀ x ∈ visited, x ∈ tasks.map Prod.fst) →
      ordered.Perm (visited.map (taskAt tasks)) →
      rootsPlaced tasks visited ordered → parentOrdered tasks ordered →
      ((ids.foldl (fun acc id => visit tasks id acc.1 acc.2) (visited, ordered)).1.Nodup ∧
       (∀ x ∈ (ids.foldl (fun acc id => visit tasks id acc.1 acc.2) (visited, ordered)).1,
         x ∈ tasks.map Prod.fst) ∧
       (ids.foldl (fun acc id => visit tasks id acc.1 acc.2) (visited, ordered)).2.Perm
         ((ids.foldl (fun acc id => visit tasks id acc.1 acc.2) (visited, ordered)).1.map (taskAt tasks)) ∧
       rootsPlaced tasks (ids.foldl (fun acc id => visit tasks id acc.1 acc.2) (visited, ordered)).1
         (ids.foldl (fun acc id => visit tasks id acc.1 acc.2) (visited, ordered)).2 ∧
       parentOrdered tasks (ids.foldl (fun acc id => visit tasks id acc.1 acc.2) (visited, ordered)).2 ∧
       (∀ i ∈ ids, i ∈ (ids.foldl (fun acc id => visit tasks id acc.1 acc.2) (visited, ordered)).1) ∧
       ∃ dv, (ids.foldl (fun acc id => visit tasks id acc.1 acc.2) (visited, ordered)).1 = dv ++ visited) := by
  intro ids
  induction ids with
  | nil =>
    intro _ visited ordered h1 h2 h3 h4 h5
    exact ⟨h1, h2, h3, h4, h5, by simp, [], rfl⟩
  | cons i rest ih =>
    intro hids visited ordered h1 h2 h3 h4 h5
    have himem : i ∈ tasks.map Prod.fst := hids i (List.mem_cons_self _ _)
    obtain ⟨dv, dO, e1, e2, hnd, hdom, hperm, hidm, hinv1, hinv2⟩ :=
      visit_spec tasks i visited ordered himem
    have hv1nd : (visit tasks i visited ordered).1.Nodup := by
      rw [e1]
      refine List.Nodup.append hnd h1 ?_
      intro a ha hb
      exact (hdom a ha).2 hb
    have hv1sub : ∀ x ∈ (visit tasks i visited ordered).1, x ∈ tasks.map Prod.fst := by
      rw [e1]
      intro x hx
      rcases List.mem_append.mp hx with hx1 | hx2
      · exact (hdom x hx1).1
      · exact h2 x hx2
    have hv2perm : (visit tasks i visited ordered).2.Perm
        ((visit tasks i visited ordered).1.map (taskAt tasks)) := by
      rw [e1, e2, List.map_append]
      exact List.Perm.trans (List.Perm.append h3 hperm) List.perm_append_comm
    have hR : rootsPlaced tasks (visit tasks i visited ordered).1 (visit tasks i visited ordered).2 :=
      hinv1 h4
    have hP : parentOrdered tasks (visit tasks i visited ordered).2 := hinv2 h4 h5
    have hrest : ∀ j ∈ rest, j ∈ tasks.map Prod.fst := fun j hj => hids j (List.mem_cons_of_mem _ hj)
    have hfold := ih hrest (visit tasks i visited ordered).1 (visit tasks i visited ordered).2
      hv1nd hv1sub hv2perm hR hP
    obtain ⟨k1, k2, k3, k4, k5, k6, dv2, k7⟩ := hfold
    have hstep : (i :: rest).foldl (fun acc id => visit tasks id acc.1 acc.2) (visited, ordered) =
        rest.foldl (fun acc id => visit tasks id acc.1 acc.2)
          ((visit tasks i visited ordered).1, (visit tasks i visited ordered).2) := by
      simp [List.foldl_cons]
    rw [hstep]
    refine ⟨k1, k2, k3, k4, k5, ?_, ?_⟩
    · intro j hj
      rcases List.mem_cons.mp hj with rfl | hj2
      · rw [k7]
        exact List.mem_append_right _ hidm
      · exact k6 j hj2
    · exact ⟨dv2 ++ dv, by rw [k7, e1, List.append_assoc]⟩

theorem map_taskAt_keys (tasks : List (String × Task)) (hnd : (tasks.map Prod.fst).Nodup) :
    (tasks.map Prod.fst).map (taskAt tasks) = tasks.map Prod.snd := by
  induction tasks with
  | nil => simp
  | cons kv rest ih =>
    obtain ⟨k, v⟩ := kv
    simp only [List.map_cons, List.nodup_cons] at hnd
    have hcongr : ∀ x ∈ rest.map Prod.fst, taskAt ((k, v) :: rest) x = taskAt rest x := by
      intro x hx
      have hne : k ≠ x := fun he => hnd.1 (he ▸ hx)
      simp [taskAt, lookupA, hne]
    have hhead : taskAt ((k, v) :: rest) k = v := by simp [taskAt, lookupA]
    have htail : List.map (taskAt ((k, v) :: rest)) (rest.map Prod.fst) = rest.map Prod.snd := by
      rw [List.map_congr_left hcongr]
      exact ih hnd.2
    simp only [List.map_cons, hhead, htail]

theorem orderTasks_perm (tasks : List (String × Task))
    (hnd : (tasks.map Prod.fst).Nodup) :
    (orderTasks tasks).Perm (tasks.map Prod.snd) := by
  obtain ⟨k1, k2, k3, k4, k5, k6, dv, k7⟩ :=
    foldVisit_spec tasks (tasks.map Prod.fst) (fun i hi => hi) [] []
      List.nodup_nil (by simp) (by simp) (by intro k hk; cases hk) (by intro t ht; cases ht)
  set r := (tasks.map Prod.fst).foldl (fun acc id => visit tasks id acc.1 acc.2) ([], [])
  have hsub1 : r.1 ⊆ tasks.map Prod.fst := fun x hx => k2 x hx
  have hsub2 : tasks.map Prod.fst ⊆ r.1 := fun x hx => k6 x hx
  have hpermkeys : r.1.Perm (tasks.map Prod.fst) :=
    (k1.subperm hsub1).antisymm ((hnd.subperm) hsub2)
  have : r.2.Perm ((tasks.map Prod.fst).map (taskAt tasks)) :=
    k3.trans (hpermkeys.map (taskAt tasks))
  rw [map_taskAt_keys tasks hnd] at this
  exact this

theorem orderTasks_parent_before_child (tasks : List (String × Task)) (A B : Task)
    (hnd : (tasks.map Prod.fst).Nodup)
    (hA : lookupA tasks A.id = some A) (hB : lookupA tasks B.id = some B)
    (hpar : B.parent_id = some A.id) (hroot : A.parent_id = none) (hne : A.id ≠ "") :
    [A, B].Sublist (orderTasks tasks) := by
  obtain ⟨k1, k2, k3, k4, k5, k6, dv, k7⟩ :=
    foldVisit_spec tasks (tasks.map Prod.fst) (fun i hi => hi) [] []
      List.nodup_nil (by simp) (by simp) (by intro k hk; cases hk) (by intro t ht; cases ht)
  have hBmem : B ∈ orderTasks tasks := by
    have := orderTasks_perm tasks hnd
    rw [this.mem_iff]
    exact List.mem_map_of_mem Prod.snd (lookupA_some_mem hB)
  have hAkey : A.id ∈ tasks.map Prod.fst := (lookupA_isSome_iff_mem tasks A.id).mp (by simp [hA])
  have htAA : taskAt tasks A.id = A := taskAt_eq hA
  have := k5 B hBmem A.id hpar hne hAkey (by rw [htAA]; exact hroot)
  rw [htAA] at this
  exact this

/-- Scenario task 7 from the testable-properties section: child of task 3. -/
def exTask7 : Task :=
  { id := "7", project_id := "", name := "Fix bug", description := "", status := "unknown",
    parent_id := some "3" }

/-- Scenario task 3: the parent, itself parentless. -/
def exTask3 : Task :=
  { id := "3", project_id := "", name := "Parent", description := "", status := "unknown" }

/-- Scenario batch, fetched in the order 7 then 3. -/
def exBatch73 : List (String × Task) := [("7", exTask7), ("3", exTask3)]

/-- Task P of a two-task parent cycle. -/
def cycTaskP : Task :=
  { id := "P", project_id := "", name := "p", description := "", status := "unknown",
    parent_id := some "Q" }

/-- Task Q of a two-task parent cycle. -/
def cycTaskQ : Task :=
  { id := "Q", project_id := "", name := "q", description := "", status := "unknown",
    parent_id := some "P" }

/-- Batch whose parent references form a cycle confined to the batch. -/
def cycBatchPQ : List (String × Task) := [("P", cycTaskP), ("Q", cycTaskQ)]

/-- Task X of a second two-task parent cycle. -/
def cycTaskX : Task :=
  { id := "X", project_id := "", name := "x", description := "", status := "unknown",
    parent_id := some "Y" }

/-- Task Y of a second two-task parent cycle. -/
def cycTaskY : Task :=
  { id := "Y", project_id := "", name := "y", description := "", status := "unknown",
    parent_id := some "X" }

/-- Second cyclic batch. -/
def cycBatchXY : List (String × Task) := [("X", cycTaskX), ("Y", cycTaskY)]

theorem orderTasks_batch73_eval : orderTasks exBatch73 = [exTask3, exTask7] := by
  simp [orderTasks, exBatch73]
  repeat (rw [visit]; simp [lookupA, exTask7, exTask3])

theorem orderTasks_cycPQ_eval : orderTasks cycBatchPQ = [cycTaskQ, cycTaskP] := by
  simp [orderTasks, cycBatchPQ]
  repeat (rw [visit]; simp [lookupA, cycTaskP, cycTaskQ])

theorem orderTasks_cycXY_eval : orderTasks cycBatchXY = [cycTaskY, cycTaskX] := by
  simp [orderTasks, cycBatchXY]
  repeat (rw [visit]; simp [lookupA, cycTaskX, cycTaskY])

/-- Counterexample payload for claim C9: the name is present only under the
third candidate key, title. -/
def exPayloadTitle : RawVal := .dict [("id", .str "1"), ("title", .str "T")]

/-- Claim C9, counterexample: on a payload whose name is present only
under the third candidate key title, map_task yields that value while the
two-key snake-then-camel reading of the claim yields the Task id
default. -/
theorem claim_C9_counterexample :
    (mapTask exPayloadTitle).name = "T" ∧
    claimC9Name (extractFields exPayloadTitle) (mapTask exPayloadTitle).id = "Task 1" ∧
    (mapTask exPayloadTitle).name ≠
      claimC9Name (extractFields exPayloadTitle) (mapTask exPayloadTitle).id := by
  refine ⟨?_, ?_, ?_⟩ <;> decide

/-- Claim C9 as amended: map_task reads name, description and status from
ordered candidate-key lists (snake-cased, then legacy camel-cased, plus
title as a third candidate for name), the first truthy value winning,
with the defaults Task id, empty string and unknown. -/
theorem claim_C9_field_extraction :
    ∀ payload : RawVal,
      (mapTask payload).name =
        firstTruthyKey (extractFields payload) ["name", "Name", "title"]
          ("Task " ++ (mapTask payload).id) ∧
      (mapTask payload).description =
        firstTruthyKey (extractFields payload) ["description", "Description"] "" ∧
      (mapTask payload).status =
        firstTruthyKey (extractFields payload) ["status", "Status"] "unknown" := by
  intro payload
  refine ⟨?_, ?_, ?_⟩ <;>
    simp only [mapTask, firstTruthyKey, pyOr] <;>
    split_ifs <;>
    simp_all [pyStr]

/-- Claim C2, counterexample: in a batch whose parent references form a
cycle, the pair A = cycTaskP, B = cycTaskQ (B.parent_id = A.id) is emitted
with B strictly before A, so the ordering step does not place A before B. -/
theorem claim_C2_counterexample :
    cycTaskQ.parent_id = some cycTaskP.id ∧
    lookupA cycBatchPQ cycTaskP.id = some cycTaskP ∧
    lookupA cycBatchPQ cycTaskQ.id = some cycTaskQ ∧
    orderTasks cycBatchPQ = [cycTaskQ, cycTaskP] ∧
    ¬ [cycTaskP, cycTaskQ].Sublist (orderTasks cycBatchPQ) := by
  refine ⟨rfl, by decide, by decide, orderTasks_cycPQ_eval, ?_⟩
  rw [orderTasks_cycPQ_eval]
  decide

/-- Claim C2 as amended: for a pair A, B of batch tasks with
B.parent_id = A.id where A itself has no parent (and a non-empty id), the
ordering emits A strictly before B; and the concrete scenario batch
fetched as [7, 3] is emitted as [3, 7]. -/
theorem claim_C2_parent_before_child :
    (∀ (tasks : List (String × Task)) (A B : Task),
      (tasks.map Prod.fst).Nodup →
      lookupA tasks A.id = some A → lookupA tasks B.id = some B →
      B.parent_id = some A.id → A.parent_id = none → A.id ≠ "" →
      [A, B].Sublist (orderTasks tasks)) ∧
    orderTasks exBatch73 = [exTask3, exTask7] :=
  ⟨fun tasks A B hnd hA hB hpar hroot hne =>
    orderTasks_parent_before_child tasks A B hnd hA hB hpar hroot hne,
   orderTasks_batch73_eval⟩

theorem claim_C2_witness : [exTask3, exTask7].Sublist (orderTasks exBatch73) :=
  claim_C2_parent_before_child.1 exBatch73 exTask3 exTask7 (by decide) (by decide)
    (by decide) (by decide) rfl (by decide)

/-- Claim C4, counterexample: on a batch whose parent references form a
cycle confined to the batch, the traversal terminates and returns a value
(this Lean function mirrors the source recursion call for call; it is
total because visited is marked before the recursive parent visit, which
is exactly why the Python recursion also terminates on a cycle). -/
theorem claim_C4_counterexample :
    cycTaskX.parent_id = some cycTaskY.id ∧
    cycTaskY.parent_id = some cycTaskX.id ∧
    orderTasks cycBatchXY = [cycTaskY, cycTaskX] :=
  ⟨rfl, rfl, orderTasks_cycXY_eval⟩

/-- Claim C4 as amended: the ordering traversal terminates on every batch,
cyclic ones included, because each node is marked visited before the
recursive parent visit; it emits exactly as many tasks as the batch holds,
and the two-cycle batch is emitted in child-before-parent order. -/
theorem claim_C4_cycle_terminates :
    (∀ tasks : List (String × Task), (tasks.map Prod.fst).Nodup →
      (orderTasks tasks).length = tasks.length) ∧
    (orderTasks cycBatchXY).map Task.id = [cycTaskY.id, cycTaskX.id] := by
  constructor
  · intro tasks hnd
    rw [(orderTasks_perm tasks hnd).length_eq, List.length_map]
  · rw [orderTasks_cycXY_eval]
    decide

theorem claim_C4_witness : (orderTasks cycBatchXY).length = cycBatchXY.length :=
  claim_C4_cycle_terminates.1 cycBatchXY (by decide)

/-- Claim C10: on every finite batch with distinct task ids, cyclic parent
references included, the ordering step emits every task of the batch
exactly once (the output is a permutation of the batch values). -/
theorem claim_C10_each_task_once (tasks : List (String × Task))
    (hnd : (tasks.map Prod.fst).Nodup) :
    (orderTasks tasks).Perm (tasks.map Prod.snd) :=
  orderTasks_perm tasks hnd

theorem claim_C10_witness :
    (cycBatchPQ.map Prod.fst).Nodup ∧ (orderTasks cycBatchPQ).Perm (cycBatchPQ.map Prod.snd) :=
  ⟨by decide, claim_C10_each_task_once cycBatchPQ (by decide)⟩

/-- Remote failure (a non-2xx response raised as MegaplanAPIError or
OpenProjectAPIError). -/
inductive Err where
  | remote (msg : String)
deriving DecidableEq, Repr, Inhabited

/-- Run statistics (sync.py SyncStats). -/
structure SyncStats where
  created : Nat := 0
  updated : Nat := 0
  skipped : Nat := 0
  attachments : Nat := 0
  comments : Nat := 0
deriving DecidableEq, Repr, Inhabited

/-- Pointwise sum, modelling the += accumulation in _sync_project. -/
def addStats (a b : SyncStats) : SyncStats :=
  { created := a.created + b.created, updated := a.updated + b.updated,
    skipped := a.skipped + b.skipped, attachments := a.attachments + b.attachments,
    comments := a.comments + b.comments }

/-- Profile dict built by _resolve_user and passed to ensure_user. -/
structure UserProfile where
  login : RawVal
  email : RawVal
  firstName : RawVal
  lastName : RawVal

/-- Target write payload built by TaskMapper.to_openproject_payload. -/
structure WpPayload where
  subject : String
  description : String
  projectHref : String
  statusHref : Option String := none
  typeHref : Option String := none
  assigneeHref : Option String := none
  parentHref : Option String := none
  startDate : Option String := none
  dueDate : Option String := none
deriving DecidableEq, Repr, Inhabited

/-- Observable side-effecting calls of the run (mutations of the target
system plus the attachment download). -/
inductive Event where
  | createWorkPackage (payload : WpPayload)
  | updateWorkPackage (wpId : Int) (payload : WpPayload)
  | createComment (wpId : Int) (body : String)
  | uploadAttachment (wpId : Int) (path : String)
  | downloadFile (fileId : String) (path : String)
deriving DecidableEq, Repr

/-- Mutable state of a run: the utcnow counter, the five MappingStore
tables (each row (key, (openproject_id, synced_at))), and the log of
side-effecting calls. -/
structure St where
  clock : Nat := 0
  tasksM : List (String × (Int × Nat)) := []
  usersM : List (String × (Int × Nat)) := []
  attachM : List (String × (Int × Nat)) := []
  commentM : List (String × (Int × Nat)) := []
  lastSyncM : List (String × Nat) := []
  events : List Event := []
deriving DecidableEq, Repr, Inhabited

/-- The two HTTP clients as pure response functions; .error models a
RemoteError raised on a non-2xx response.  Responses are modelled by the
fields the core reads: create_work_package and upload_attachment by the
integer id of the response, update_work_package and create_comment by
their optional id field, ensure_user by the id of the found-or-created
user. -/
structure Env where
  authenticate : Except Err Unit
  iterProjectTasks : String → Nat → Option Nat → Except Err (List RawVal)
  getComments : String → Except Err (List RawVal)
  getFiles : String → Except Err (List RawVal)
  downloadFile : String → String → Except Err Unit
  getUsers : List String → Except Err (List RawVal)
  ensureUser : UserProfile → Except Err Int
  createWorkPackage : WpPayload → Except Err Int
  updateWorkPackage : Int → WpPayload → Except Err (Option Int)
  createComment : Int → String → Except Err (Option Int)
  uploadAttachment : Int → String → Except Err Int

/-- datetime.utcnow(): returns the current counter and advances it, so
successive calls yield strictly increasing timestamps. -/
def utcnow (s : St) : St × Nat := ({ s with clock := s.clock + 1 }, s.clock)

/-- Record one side-effecting call. -/
def logEvent (e : Event) (s : St) : St := { s with events := s.events ++ [e] }

/-- MappingStore._upsert on the tasks table (utcnow for synced_at, then
the upsert). -/
def upsertTaskM (s : St) (k : String) (v : Int) : St :=
  let p := utcnow s
  { p.1 with tasksM := upsertA p.1.tasksM k (v, p.2) }

/-- MappingStore._upsert on the users table. -/
def upsertUserM (s : St) (k : String) (v : Int) : St :=
  let p := utcnow s
  { p.1 with usersM := upsertA p.1.usersM k (v, p.2) }

/-- MappingStore._upsert on the attachments table. -/
def upsertAttachmentM (s : St) (k : String) (v : Int) : St :=
  let p := utcnow s
  { p.1 with attachM := upsertA p.1.attachM k (v, p.2) }

/-- MappingStore._upsert on the comments table. -/
def upsertCommentM (s : St) (k : String) (v : Int) : St :=
  let p := utcnow s
  { p.1 with commentM := upsertA p.1.commentM k (v, p.2) }

/-- MappingStore._get on the tasks table (openproject_id column only). -/
def getTaskM (s : St) (k : String) : Option Int := (lookupA s.tasksM k).map Prod.fst

/-- MappingStore._get on the users table. -/
def getUserM (s : St) (k : String) : Option Int := (lookupA s.usersM k).map Prod.fst

/-- MappingStore._get on the attachments table. -/
def getAttachmentM (s : St) (k : String) : Option Int := (lookupA s.attachM k).map Prod.fst

/-- MappingStore._get on the comments table. -/
def getCommentM (s : St) (k : String) : Option Int := (lookupA s.commentM k).map Prod.fst

/-- MappingStore.get_last_sync. -/
def getLastSyncM (s : St) (p : String) : Option Nat := lookupA s.lastSyncM p

/-- MappingStore.set_last_sync (the caller passes the moment). -/
def setLastSyncM (s : St) (p : String) (t : Nat) : St :=
  { s with lastSyncM := upsertA s.lastSyncM p t }

/-- Python truthiness of an Optional[int]: None and 0 are falsy. -/
def pyTruthyOptInt : Option Int → Bool
  | none => false
  | some n => n != 0

/-- Python truthiness of an Optional[str]: None and the empty string are
falsy. -/
def pyTruthyOptStr : Option String → Bool
  | none => false
  | some s => s != ""

/-- TaskMapper.to_openproject_payload. -/
def toOpenprojectPayload (statusMapping : List (String × String)) (task : Task)
    (project_id : Int) (type_id : Option Int) (parent_openproject_id : Option Int)
    (assignee_openproject_id : Option Int) : WpPayload :=
  let status := (lookupA statusMapping task.status).getD "default"
  { subject := task.name
    description := task.description
    projectHref := "/api/v3/projects/" ++ toString project_id
    statusHref := if status != "default" then some ("/api/v3/statuses/" ++ status) else none
    typeHref := match type_id with
      | some t => if t != 0 then some ("/api/v3/types/" ++ toString t) else none
      | none => none
    assigneeHref := match assignee_openproject_id with
      | some a => if a != 0 then some ("/api/v3/users/" ++ toString a) else none
      | none => none
    parentHref := match parent_openproject_id with
      | some p => if p != 0 then some ("/api/v3/work_packages/" ++ toString p) else none
      | none => none
    startDate := task.start_date.map dateOnly
    dueDate := task.due_date.map dateOnly }

/-- TaskSyncService._resolve_user. -/
def resolveUser (env : Env) (cfg : AppConfig) (uid : Option String) (s : St) :
    St × Except Err (Option Int) :=
  if !(pyTruthyOptStr uid) then (s, .ok cfg.openproject.default_user_id)
  else
    let u := uid.getD ""
    let cached := getUserM s u
    if pyTruthyOptInt cached then (s, .ok cached)
    else
      match env.getUsers [u] with
      | .error e => (s, .error e)
      | .ok users =>
        match users with
        | [] => (s, .ok cfg.openproject.default_user_id)
        | payload :: _ =>
          let profile : UserProfile :=
            { login := pyOr (payload.get "login") (payload.get "Login")
              email := pyOr (payload.get "email") (payload.get "Email")
              firstName := pyOr (payload.get "first_name") (payload.get "FirstName")
              lastName := pyOr (payload.get "last_name") (payload.get "LastName") }
          match env.ensureUser profile with
          | .error e => (s, .error e)
          | .ok open_id => (upsertUserM s u open_id, .ok (some open_id))

/-- Attribution suffix of _sync_comments (author or the unknown marker). -/
def commentAuthorText : Option String → String
  | some a => if a != "" then a else "неизвестно"
  | none => "неизвестно"

/-- Comment loop of TaskSyncService._sync_comments. -/
def syncCommentsLoop (env : Env) (open_task_id : Int) (taskId : String) :
    List Comment → Nat → St → St × Except Err Nat
  | [], synced, s => (s, .ok synced)
  | c :: rest, synced, s =>
    let comment_key := taskId ++ ":" ++ c.id
    if pyTruthyOptInt (getCommentM s comment_key) then
      syncCommentsLoop env open_task_id taskId rest synced s
    else
      let body := c.body ++ "\n\n_Автор: " ++ commentAuthorText c.author_id ++ "_"
      let s1 := logEvent (.createComment open_task_id body) s
      match env.createComment open_task_id body with
      | .error e => (s1, .error e)
      | .ok rid =>
        let comment_id : Int := rid.getD 0
        let stored := if comment_id != 0 then comment_id else open_task_id
        let s2 := upsertCommentM s1 comment_key stored
        syncCommentsLoop env open_task_id taskId rest (synced + 1) s2

/-- TaskSyncService._sync_comments. -/
def syncComments (env : Env) (open_task_id : Int) (task : Task) (s : St) :
    St × Except Err Nat :=
  syncCommentsLoop env open_task_id task.id task.comments 0 s

/-- Attachment loop of TaskSyncService._sync_attachments: size gate first,
then the already-mapped check, then download, upload and the mapping
upsert.  The scoped temp file removal touches only the filesystem and is
not part of the state. -/
def syncAttachmentsLoop (env : Env) (cfg : AppConfig) (open_task_id : Int) :
    List Attachment → Nat → St → St × Except Err Nat
  | [], synced, s => (s, .ok synced)
  | a :: rest, synced, s =>
    if (a.size : ℚ) > cfg.sync.attachment_max_mb * 1024 * 1024 then
      syncAttachmentsLoop env cfg open_task_id rest synced s
    else if pyTruthyOptInt (getAttachmentM s a.id) then
      syncAttachmentsLoop env cfg open_task_id rest synced s
    else
      let tmp_path := cfg.sync.tmp_dir ++ "/" ++ a.filename
      let s1 := logEvent (.downloadFile a.id tmp_path) s
      match env.downloadFile a.id tmp_path with
      | .error e => (s1, .error e)
      | .ok _ =>
        let s2 := logEvent (.uploadAttachment open_task_id tmp_path) s1
        match env.uploadAttachment open_task_id tmp_path with
        | .error e => (s2, .error e)
        | .ok attachment_id =>
          let s3 := upsertAttachmentM s2 a.id attachment_id
          syncAttachmentsLoop env cfg open_task_id rest (synced + 1) s3

/-- TaskSyncService._sync_attachments. -/
def syncAttachments (env : Env) (cfg : AppConfig) (open_task_id : Int) (task : Task)
    (s : St) : St × Except Err Nat :=
  syncAttachmentsLoop env cfg open_task_id task.attachments 0 s

/-- Tail of TaskSyncService._sync_task after the create-or-update branch:
the optional comment and attachment syncs and the stats record. -/
def syncTaskTail (env : Env) (cfg : AppConfig) (open_task_id : Int) (task : Task)
    (base : SyncStats) (s : St) : St × Except Err SyncStats :=
  match (if cfg.sync.sync_comments then syncComments env open_task_id task s
         else (s, .ok 0)) with
  | (s1, .error e) => (s1, .error e)
  | (s1, .ok nc) =>
    match (if cfg.sync.sync_attachments then syncAttachments env cfg open_task_id task s1
           else (s1, .ok 0)) with
    | (s2, .error e) => (s2, .error e)
    | (s2, .ok na) =>
      (s2, .ok { base with comments := base.comments + nc, attachments := base.attachments + na })

/-- TaskSyncService._sync_task. -/
def syncTask (env : Env) (cfg : AppConfig) (statusMapping : List (String × String))
    (mapping : ProjectMapping) (task : Task) (s : St) : St × Except Err SyncStats :=
  let existing_open_id := getTaskM s task.id
  let parent_open_id : Option Int :=
    if pyTruthyOptStr task.parent_id then getTaskM s (task.parent_id.getD "") else none
  match resolveUser env cfg task.assignee_id s with
  | (s1, .error e) => (s1, .error e)
  | (s1, .ok assignee_open_id) =>
    let payload := toOpenprojectPayload statusMapping task mapping.openproject_id none
      parent_open_id assignee_open_id
    if pyTruthyOptInt existing_open_id then
      let exid := existing_open_id.getD 0
      let s2 := logEvent (.updateWorkPackage exid payload) s1
      match env.updateWorkPackage exid payload with
      | .error e => (s2, .error e)
      | .ok _ =>
        let s3 := upsertTaskM s2 task.id exid
        syncTaskTail env cfg exid task { updated := 1 } s3
    else
      let s2 := logEvent (.createWorkPackage payload) s1
      match env.createWorkPackage payload with
      | .error e => (s2, .error e)
      | .ok open_id =>
        let s3 := upsertTaskM s2 task.id open_id
        syncTaskTail env cfg open_id task { created := 1 } s3

/-- TaskSyncService._enrich_task: fetch and canonicalize comments and
attachments when the toggles are on; no store writes. -/
def enrichTask (env : Env) (cfg : AppConfig) (task : Task) : Except Err Task :=
  let step1 : Except Err Task :=
    if cfg.sync.sync_comments then
      match env.getComments task.id with
      | .error e => .error e
      | .ok raws => .ok { task with comments := raws.map mapComment }
    else .ok task
  match step1 with
  | .error e => .error e
  | .ok t1 =>
    if cfg.sync.sync_attachments then
      match env.getFiles t1.id with
      | .error e => .error e
      | .ok raws => .ok { t1 with attachments := raws.map mapAttachment }
    else .ok t1

/-- Per-task loop of TaskSyncService._sync_project: enrich, dry-run skip
or reconcile, accumulate stats. -/
def syncTasksLoop (env : Env) (cfg : AppConfig) (statusMapping : List (String × String))
    (mapping : ProjectMapping) : List Task → SyncStats → St → St × Except Err SyncStats
  | [], stats, s => (s, .ok stats)
  | t :: rest, stats, s =>
    match enrichTask env cfg t with
    | .error e => (s, .error e)
    | .ok t1 =>
      if cfg.sync.dry_run then
        syncTasksLoop env cfg statusMapping mapping rest
          { stats with skipped := stats.skipped + 1 } s
      else
        match syncTask env cfg statusMapping mapping t1 s with
        | (s2, .error e) => (s2, .error e)
        | (s2, .ok r) => syncTasksLoop env cfg statusMapping mapping rest (addStats stats r) s2

/-- Task dict of _sync_project: tasks[task.id] = task in fetch order. -/
def buildTaskDict (raws : List RawVal) : List (String × Task) :=
  raws.foldl (fun d raw => upsertA d (mapTask raw).id (mapTask raw)) []

/-- TaskSyncService._sync_project. -/
def syncProject (env : Env) (cfg : AppConfig) (statusMapping : List (String × String))
    (mapping : ProjectMapping) (updated_since : Option Nat) (s : St) :
    St × Except Err SyncStats :=
  match env.authenticate with
  | .error e => (s, .error e)
  | .ok _ =>
    match env.iterProjectTasks mapping.megaplan_id cfg.sync.page_size updated_since with
    | .error e => (s, .error e)
    | .ok raw_tasks =>
      if raw_tasks.isEmpty then (s, .ok {})
      else
        syncTasksLoop env cfg statusMapping mapping (orderTasks (buildTaskDict raw_tasks)) {} s

/-- Project loop of TaskSyncService.initial_migration: every project is
fetched without a window and its watermark is then set to utcnow(). -/
def initialMigrationLoop (env : Env) (cfg : AppConfig)
    (statusMapping : List (String × String)) :
    List ProjectMapping → List (String × SyncStats) → St →
      St × Except Err (List (String × SyncStats))
  | [], results, s => (s, .ok results)
  | m :: rest, results, s =>
    match syncProject env cfg statusMapping m none s with
    | (s1, .error e) => (s1, .error e)
    | (s1, .ok stats) =>
      let p := utcnow s1
      let s3 := setLastSyncM p.1 m.megaplan_id p.2
      initialMigrationLoop env cfg statusMapping rest (upsertA results m.megaplan_id stats) s3

/-- TaskSyncService.initial_migration. -/
def initialMigration (env : Env) (cfg : AppConfig)
    (statusMapping : List (String × String)) (s : St) :
    St × Except Err (List (String × SyncStats)) :=
  initialMigrationLoop env cfg statusMapping cfg.projects [] s

/-- Project loop of TaskSyncService.incremental_sync: the window start is
the explicit override if given, else the stored watermark. -/
def incrementalSyncLoop (env : Env) (cfg : AppConfig)
    (statusMapping : List (String × String)) (since : Option Nat) :
    List ProjectMapping → List (String × SyncStats) → St →
      St × Except Err (List (String × SyncStats))
  | [], results, s => (s, .ok results)
  | m :: rest, results, s =>
    let project_since := match since with
      | some t => some t
      | none => getLastSyncM s m.megaplan_id
    match syncProject env cfg statusMapping m project_since s with
    | (s1, .error e) => (s1, .error e)
    | (s1, .ok stats) =>
      let p := utcnow s1
      let s3 := setLastSyncM p.1 m.megaplan_id p.2
      incrementalSyncLoop env cfg statusMapping since rest (upsertA results m.megaplan_id stats) s3

/-- TaskSyncService.incremental_sync. -/
def incrementalSync (env : Env) (cfg : AppConfig)
    (statusMapping : List (String × String)) (since : Option Nat) (s : St) :
    St × Except Err (List (String × SyncStats)) :=
  incrementalSyncLoop env cfg statusMapping since cfg.projects [] s

/-- All client calls succeed (every remote response is 2xx). -/
structure EnvOk (env : Env) : Prop where
  authOk : env.authenticate = .ok ()
  iterOk : ∀ p n t, ∃ raws, env.iterProjectTasks p n t = .ok raws
  commentsOk : ∀ tid, ∃ raws, env.getComments tid = .ok raws
  filesOk : ∀ tid, ∃ raws, env.getFiles tid = .ok raws
  downloadOk : ∀ fid path, env.downloadFile fid path = .ok ()
  usersOk : ∀ ids, ∃ raws, env.getUsers ids = .ok raws
  ensureOk : ∀ profile, ∃ n, env.ensureUser profile = .ok n
  createOk : ∀ p, ∃ n, env.createWorkPackage p = .ok n
  updateOk : ∀ i p, ∃ r, env.updateWorkPackage i p = .ok r
  createCommentOk : ∀ i b, ∃ r, env.createComment i b = .ok r
  uploadOk : ∀ i p, ∃ n, env.uploadAttachment i p = .ok n

theorem lookupA_upsertA_self {α : Type} (l : List (String × α)) (k : String) (v : α) :
    lookupA (upsertA l k v) k = some v := by
  induction l with
  | nil => simp [upsertA, lookupA]
  | cons kv rest ih =>
    obtain ⟨k', w⟩ := kv
    by_cases h : k' = k
    · subst h; simp [upsertA, lookupA]
    · simp [upsertA, lookupA, h, ih]

theorem lookupA_upsertA_ne {α : Type} (l : List (String × α)) (k k' : String) (v : α)
    (h : k ≠ k') : lookupA (upsertA l k v) k' = lookupA l k' := by
  induction l with
  | nil => simp [upsertA, lookupA, h]
  | cons kv rest ih =>
    obtain ⟨k0, w⟩ := kv
    by_cases h0 : k0 = k
    · subst h0; simp [upsertA, lookupA, h]
    · simp [upsertA, lookupA, h0, ih]

theorem mem_upsertA {α : Type} {l : List (String × α)} {k : String} {v : α} {x : String × α}
    (hx : x ∈ upsertA l k v) : x ∈ l ∨ x = (k, v) := by
  induction l with
  | nil => simpa [upsertA] using hx
  | cons kv rest ih =>
    obtain ⟨k0, w⟩ := kv
    by_cases h0 : k0 = k
    · subst h0
      simp only [upsertA, if_pos rfl] at hx
      rcases List.mem_cons.mp hx with rfl | hmem
      · exact Or.inr rfl
      · exact Or.inl (List.mem_cons_of_mem _ hmem)
    · simp only [upsertA, if_neg h0] at hx
      rcases List.mem_cons.mp hx with rfl | hmem
      · exact Or.inl (List.mem_cons_self _ _)
      · rcases ih hmem with h | h
        · exact Or.inl (List.mem_cons_of_mem _ h)
        · exact Or.inr h

theorem map_fst_upsertA {α : Type} (l : List (String × α)) (k : String) (v : α) (x : String) :
    x ∈ (upsertA l k v).map Prod.fst ↔ x ∈ l.map Prod.fst ∨ x = k := by
  induction l with
  | nil => simp [upsertA]
  | cons kv rest ih =>
    obtain ⟨k0, w⟩ := kv
    by_cases h0 : k0 = k
    · subst h0
      simp [upsertA]
      tauto
    · simp [upsertA, h0, ih]
      tauto

theorem nodup_map_fst_upsertA {α : Type} (l : List (String × α)) (k : String) (v : α)
    (h : (l.map Prod.fst).Nodup) : ((upsertA l k v).map Prod.fst).Nodup := by
  induction l with
  | nil => simp [upsertA]
  | cons kv rest ih =>
    obtain ⟨k0, w⟩ := kv
    simp only [List.map_cons, List.nodup_cons] at h
    by_cases h0 : k0 = k
    · subst h0
      simpa [upsertA] using h
    · simp only [upsertA, if_neg h0, List.map_cons, List.nodup_cons]
      refine ⟨?_, ih h.2⟩
      intro hc
      rw [map_fst_upsertA] at hc
      rcases hc with hc | hc
      · exact h.1 hc
      · exact h0 hc

theorem upsertA_length_new {α : Type} (l : List (String × α)) (k : String) (v : α)
    (h : k ∉ l.map Prod.fst) : (upsertA l k v).length = l.length + 1 := by
  induction l with
  | nil => simp [upsertA]
  | cons kv rest ih =>
    obtain ⟨k0, w⟩ := kv
    simp only [List.map_cons, List.mem_cons] at h
    push_neg at h
    simp [upsertA, Ne.symm h.1, ih h.2]

/-- Task mapping present with a truthy (non-zero) target id: what the
create-or-update branch of _sync_task actually tests. -/
def MapOkAt (s : St) (k : String) : Prop :=
  ∃ v ts, lookupA s.tasksM k = some (v, ts) ∧ v ≠ 0

theorem mapOkAt_iff_truthy (s : St) (k : String) :
    MapOkAt s k ↔ pyTruthyOptInt (getTaskM s k) = true := by
  unfold MapOkAt getTaskM pyTruthyOptInt
  cases h : lookupA s.tasksM k with
  | none => simp [h]
  | some p =>
    obtain ⟨v, ts⟩ := p
    simp [h]

/-- State evolution inside one project sync: the clock never goes back,
watermarks are untouched, task mappings never disappear and truthy task
mappings stay truthy. -/
def Preserves (s s' : St) : Prop :=
  s.clock ≤ s'.clock ∧ s'.lastSyncM = s.lastSyncM ∧
  (∀ k, (lookupA s.tasksM k).isSome → (lookupA s'.tasksM k).isSome) ∧
  (∀ k, MapOkAt s k → MapOkAt s' k)

theorem preserves_refl (s : St) : Preserves s s :=
  ⟨Nat.le_refl _, rfl, fun _ h => h, fun _ h => h⟩

theorem preserves_trans {s1 s2 s3 : St} (h1 : Preserves s1 s2) (h2 : Preserves s2 s3) :
    Preserves s1 s3 :=
  ⟨Nat.le_trans h1.1 h2.1, h2.2.1.trans h1.2.1,
   fun k hk => h2.2.2.1 k (h1.2.2.1 k hk), fun k hk => h2.2.2.2 k (h1.2.2.2 k hk)⟩

theorem preserves_logEvent (e : Event) (s : St) : Preserves s (logEvent e s) :=
  ⟨Nat.le_refl _, rfl, fun _ h => h, fun _ h => h⟩

theorem preserves_upsertUserM (s : St) (k : String) (v : Int) :
    Preserves s (upsertUserM s k v) :=
  ⟨Nat.le_succ _, rfl, fun _ h => h, fun _ h => h⟩

theorem preserves_upsertAttachmentM (s : St) (k : String) (v : Int) :
    Preserves s (upsertAttachmentM s k v) :=
  ⟨Nat.le_succ _, rfl, fun _ h => h, fun _ h => h⟩

theorem preserves_upsertCommentM (s : St) (k : String) (v : Int) :
    Preserves s (upsertCommentM s k v) :=
  ⟨Nat.le_succ _, rfl, fun _ h => h, fun _ h => h⟩

theorem getTaskM_upsertTaskM_self (s : St) (k : String) (v : Int) :
    getTaskM (upsertTaskM s k v) k = some v := by
  simp [getTaskM, upsertTaskM, utcnow, lookupA_upsertA_self]

theorem getTaskM_upsertTaskM_ne (s : St) (k k' : String) (v : Int) (h : k ≠ k') :
    getTaskM (upsertTaskM s k v) k' = getTaskM s k' := by
  simp [getTaskM, upsertTaskM, utcnow, lookupA_upsertA_ne _ _ _ _ h]

theorem preserves_upsertTaskM_nonzero (s : St) (k : String) (v : Int) (hv : v ≠ 0) :
    Preserves s (upsertTaskM s k v) := by
  refine ⟨Nat.le_succ _, rfl, ?_, ?_⟩
  · intro k2 hk2
    by_cases he : k = k2
    · subst he
      simp [upsertTaskM, utcnow, lookupA_upsertA_self]
    · simpa [upsertTaskM, utcnow, lookupA_upsertA_ne _ _ _ _ he] using hk2
  · intro k2 hk2
    by_cases he : k = k2
    · subst he
      exact ⟨v, s.clock, by simp [upsertTaskM, utcnow, lookupA_upsertA_self], hv⟩
    · obtain ⟨v2, ts2, hl, hnz⟩ := hk2
      exact ⟨v2, ts2, by simpa [upsertTaskM, utcnow, lookupA_upsertA_ne _ _ _ _ he] using hl, hnz⟩

theorem preserves_upsertTaskM_fresh (s : St) (k : String) (v : Int)
    (h : ¬ MapOkAt s k) : Preserves s (upsertTaskM s k v) := by
  refine ⟨Nat.le_succ _, rfl, ?_, ?_⟩
  · intro k2 hk2
    by_cases he : k = k2
    · subst he
      simp [upsertTaskM, utcnow, lookupA_upsertA_self]
    · simpa [upsertTaskM, utcnow, lookupA_upsertA_ne _ _ _ _ he] using hk2
  · intro k2 hk2
    by_cases he : k = k2
    · subst he
      exact absurd hk2 h
    · obtain ⟨v2, ts2, hl, hnz⟩ := hk2
      exact ⟨v2, ts2, by simpa [upsertTaskM, utcnow, lookupA_upsertA_ne _ _ _ _ he] using hl, hnz⟩

theorem resolveUser_preserves (env : Env) (cfg : AppConfig) (uid : Option String) (s : St) :
    Preserves s (resolveUser env cfg uid s).1 := by
  unfold resolveUser
  dsimp only
  repeat' split
  all_goals first
    | exact preserves_refl _
    | exact preserves_upsertUserM _ _ _

theorem resolveUser_tasksM (env : Env) (cfg : AppConfig) (uid : Option String) (s : St) :
    (resolveUser env cfg uid s).1.tasksM = s.tasksM := by
  unfold resolveUser
  dsimp only
  repeat' split
  all_goals rfl

theorem resolveUser_ok {env : Env} (henv : EnvOk env) (cfg : AppConfig)
    (uid : Option String) (s : St) :
    ∃ r, (resolveUser env cfg uid s).2 = .ok r := by
  unfold resolveUser
  dsimp only
  repeat' split
  all_goals first
    | exact ⟨_, rfl⟩
    | (rename_i heq
       obtain ⟨raws, hr⟩ := henv.usersOk _
       rw [hr] at heq
       cases heq)
    | (rename_i heq
       obtain ⟨n, hr⟩ := henv.ensureOk _
       rw [hr] at heq
       cases heq)

theorem syncCommentsLoop_state (env : Env) (wp : Int) (tid : String) :
    ∀ (cs : List Comment) (n : Nat) (s : St),
      (syncCommentsLoop env wp tid cs n s).1.tasksM = s.tasksM ∧
      Preserves s (syncCommentsLoop env wp tid cs n s).1 := by
  intro cs
  induction cs with
  | nil => intro n s; exact ⟨rfl, preserves_refl s⟩
  | cons c rest ih =>
    intro n s
    simp only [syncCommentsLoop]
    split
    · exact ih n s
    · split
      · exact ⟨rfl, preserves_logEvent _ _⟩
      · constructor
        · rw [(ih _ _).1]
          rfl
        · exact preserves_trans (preserves_logEvent _ _)
            (preserves_trans (preserves_upsertCommentM _ _ _) (ih _ _).2)

theorem syncComments_state (env : Env) (wp : Int) (task : Task) (s : St) :
    (syncComments env wp task s).1.tasksM = s.tasksM ∧
    Preserves s (syncComments env wp task s).1 :=
  syncCommentsLoop_state env wp task.id task.comments 0 s

theorem syncCommentsLoop_ok {env : Env} (henv : EnvOk env) (wp : Int) (tid : String) :
    ∀ (cs : List Comment) (n : Nat) (s : St),
      ∃ m, (syncCommentsLoop env wp tid cs n s).2 = .ok m := by
  intro cs
  induction cs with
  | nil => intro n s; exact ⟨n, rfl⟩
  | cons c rest ih =>
    intro n s
    simp only [syncCommentsLoop]
    split
    · exact ih n s
    · split
      · rename_i heq
        obtain ⟨r, hr⟩ := henv.createCommentOk _ _
        rw [hr] at heq
        cases heq
      · exact ih _ _

theorem syncComments_ok {env : Env} (henv : EnvOk env) (wp : Int) (task : Task) (s : St) :
    ∃ m, (syncComments env wp task s).2 = .ok m :=
  syncCommentsLoop_ok henv wp task.id task.comments 0 s

theorem syncAttachmentsLoop_state (env : Env) (cfg : AppConfig) (wp : Int) :
    ∀ (as' : List Attachment) (n : Nat) (s : St),
      (syncAttachmentsLoop env cfg wp as' n s).1.tasksM = s.tasksM ∧
      Preserves s (syncAttachmentsLoop env cfg wp as' n s).1 := by
  intro as'
  induction as' with
  | nil => intro n s; exact ⟨rfl, preserves_refl s⟩
  | cons a rest ih =>
    intro n s
    simp only [syncAttachmentsLoop]
    split
    · exact ih n s
    · split
      · exact ih n s
      · split
        · exact ⟨rfl, preserves_logEvent _ _⟩
        · split
          · exact ⟨rfl, preserves_trans (preserves_logEvent _ _) (preserves_logEvent _ _)⟩
          · constructor
            · rw [(ih _ _).1]
              rfl
            · exact preserves_trans (preserves_logEvent _ _)
                (preserves_trans (preserves_logEvent _ _)
                  (preserves_trans (preserves_upsertAttachmentM _ _ _) (ih _ _).2))

theorem syncAttachments_state (env : Env) (cfg : AppConfig) (wp : Int) (task : Task) (s : St) :
    (syncAttachments env cfg wp task s).1.tasksM = s.tasksM ∧
    Preserves s (syncAttachments env cfg wp task s).1 :=
  syncAttachmentsLoop_state env cfg wp task.attachments 0 s

theorem syncAttachmentsLoop_ok {env : Env} (henv : EnvOk env) (cfg : AppConfig) (wp : Int) :
    ∀ (as' : List Attachment) (n : Nat) (s : St),
      ∃ m, (syncAttachmentsLoop env cfg wp as' n s).2 = .ok m := by
  intro as'
  induction as' with
  | nil => intro n s; exact ⟨n, rfl⟩
  | cons a rest ih =>
    intro n s
    simp only [syncAttachmentsLoop]
    split
    · exact ih n s
    · split
      · exact ih n s
      · split
        · rename_i heq
          have hr := henv.downloadOk a.id (cfg.sync.tmp_dir ++ "/" ++ a.filename)
          rw [hr] at heq
          cases heq
        · split
          · rename_i heq
            obtain ⟨r, hr⟩ := henv.uploadOk _ _
            rw [hr] at heq
            cases heq
          · exact ih _ _

theorem syncAttachments_ok {env : Env} (henv : EnvOk env) (cfg : AppConfig) (wp : Int)
    (task : Task) (s : St) :
    ∃ m, (syncAttachments env cfg wp task s).2 = .ok m :=
  syncAttachmentsLoop_ok henv cfg wp task.attachments 0 s

theorem syncTaskTail_state (env : Env) (cfg : AppConfig) (wp : Int) (task : Task)
    (base : SyncStats) (s : St) :
    (syncTaskTail env cfg wp task base s).1.tasksM = s.tasksM ∧
    Preserves s (syncTaskTail env cfg wp task base s).1 := by
  unfold syncTaskTail
  split
  · rename_i s1 e heq
    split at heq
    · have h := syncComments_state env wp task s
      rw [heq] at h
      exact h
    · cases heq
  · rename_i s1 nc heq
    have h1 : s1.tasksM = s.tasksM ∧ Preserves s s1 := by
      split at heq
      · have h := syncComments_state env wp task s
        rw [heq] at h
        exact h
      · cases heq
        exact ⟨rfl, preserves_refl _⟩
    split
    · rename_i s2 e heq2
      split at heq2
      · have h := syncAttachments_state env cfg wp task s1
        rw [heq2] at h
        exact ⟨h.1.trans h1.1, preserves_trans h1.2 h.2⟩
      · cases heq2
    · rename_i s2 na heq2
      have h2 : s2.tasksM = s1.tasksM ∧ Preserves s1 s2 := by
        split at heq2
        · have h := syncAttachments_state env cfg wp task s1
          rw [heq2] at h
          exact h
        · cases heq2
          exact ⟨rfl, preserves_refl _⟩
      exact ⟨h2.1.trans h1.1, preserves_trans h1.2 h2.2⟩

theorem syncTaskTail_ok {env : Env} (henv : EnvOk env) (cfg : AppConfig) (wp : Int)
    (task : Task) (base : SyncStats) (s : St) :
    ∃ st2 r, syncTaskTail env cfg wp task base s = (st2, .ok r) ∧
      r.created = base.created ∧ r.updated = base.updated := by
  unfold syncTaskTail
  split
  · rename_i s1 e heq
    split at heq
    · obtain ⟨m, hm⟩ := syncComments_ok henv wp task s
      rw [heq] at hm
      cases hm
    · cases heq
  · rename_i s1 nc heq
    split
    · rename_i s2 e heq2
      split at heq2
      · obtain ⟨m, hm⟩ := syncAttachments_ok henv cfg wp task s1
        rw [heq2] at hm
        cases hm
      · cases heq2
    · exact ⟨_, _, rfl, rfl, rfl⟩

/-- Create responses carry a truthy (non-zero) id, as the target API
guarantees for assigned ids. -/
def EnvPos (env : Env) : Prop :=
  ∀ p n, env.createWorkPackage p = .ok n → n ≠ 0

theorem getTaskM_congr {s1 s2 : St} (hs : s1.tasksM = s2.tasksM) (k : String) :
    getTaskM s1 k = getTaskM s2 k := by
  unfold getTaskM
  rw [hs]

theorem mapOkAt_congr {s1 s2 : St} (hs : s1.tasksM = s2.tasksM) (k : String) :
    MapOkAt s1 k ↔ MapOkAt s2 k := by
  unfold MapOkAt
  rw [hs]

theorem truthy_optInt_getD {o : Option Int} (h : pyTruthyOptInt o = true) :
    o = some (o.getD 0) ∧ o.getD 0 ≠ 0 := by
  cases o with
  | none => simp [pyTruthyOptInt] at h
  | some n =>
    refine ⟨rfl, ?_⟩
    simp only [pyTruthyOptInt] at h
    simpa using h

theorem getTaskM_some_iff {s : St} {k : String} {v : Int} :
    getTaskM s k = some v ↔ ∃ ts, lookupA s.tasksM k = some (v, ts) := by
  unfold getTaskM
  cases h : lookupA s.tasksM k with
  | none => simp
  | some p =>
    obtain ⟨w, ts⟩ := p
    simp [eq_comm]

theorem syncTask_preserves (env : Env) (cfg : AppConfig) (sm : List (String × String))
    (mapping : ProjectMapping) (task : Task) (s : St) :
    Preserves s (syncTask env cfg sm mapping task s).1 := by
  unfold syncTask
  dsimp only
  split
  · rename_i s1 e heq
    have h := resolveUser_preserves env cfg task.assignee_id s
    rw [heq] at h
    exact h
  · rename_i s1 aid heq
    have hres := resolveUser_preserves env cfg task.assignee_id s
    rw [heq] at hres
    have hresT := resolveUser_tasksM env cfg task.assignee_id s
    rw [heq] at hresT
    split
    · -- update branch
      rename_i htruthy
      obtain ⟨hsome, hnz⟩ := truthy_optInt_getD htruthy
      split
      · exact preserves_trans hres (preserves_logEvent _ _)
      · refine preserves_trans hres (preserves_trans (preserves_logEvent _ _)
          (preserves_trans (preserves_upsertTaskM_nonzero _ _ _ hnz)
            (syncTaskTail_state _ _ _ _ _ _).2))
    · -- create branch
      rename_i hfalsy
      split
      · exact preserves_trans hres (preserves_logEvent _ _)
      · rename_i open_id heq2
        have hnotok : ¬ MapOkAt (logEvent (Event.createWorkPackage
            (toOpenprojectPayload sm task mapping.openproject_id none
              (if pyTruthyOptStr task.parent_id = true then
                getTaskM s (task.parent_id.getD "") else none) aid)) s1) task.id := by
          rw [mapOkAt_congr (show (logEvent _ s1).tasksM = s.tasksM from hresT) task.id]
          rw [mapOkAt_iff_truthy]
          simp [hfalsy]
        refine preserves_trans hres (preserves_trans (preserves_logEvent _ _)
          (preserves_trans (preserves_upsertTaskM_fresh _ _ _ hnotok)
            (syncTaskTail_state _ _ _ _ _ _).2))

theorem syncTaskTail_eq_tasksM {env : Env} {cfg : AppConfig} {wp : Int} {task : Task}
    {base : SyncStats} {s st2 : St} {r : SyncStats}
    (h : syncTaskTail env cfg wp task base s = (st2, .ok r)) : st2.tasksM = s.tasksM := by
  have h2 := (syncTaskTail_state env cfg wp task base s).1
  rw [h] at h2
  exact h2

theorem syncTask_spec {env : Env} (henv : EnvOk env) (cfg : AppConfig)
    (sm : List (String × String)) (mapping : ProjectMapping) (task : Task) (s : St) :
    ∃ st2 r, syncTask env cfg sm mapping task s = (st2, .ok r) ∧
      (pyTruthyOptInt (getTaskM s task.id) = true →
        r.created = 0 ∧ r.updated = 1 ∧ getTaskM st2 task.id = getTaskM s task.id) ∧
      (pyTruthyOptInt (getTaskM s task.id) = false →
        r.created = 1 ∧ r.updated = 0 ∧
        ∃ p cid, env.createWorkPackage p = .ok cid ∧ getTaskM st2 task.id = some cid) := by
  unfold syncTask
  dsimp only
  split
  · rename_i s1 e heq
    obtain ⟨r, hr⟩ := resolveUser_ok henv cfg task.assignee_id s
    rw [heq] at hr
    cases hr
  · rename_i s1 aid heq
    have hresT := resolveUser_tasksM env cfg task.assignee_id s
    rw [heq] at hresT
    split
    · -- update branch
      rename_i htruthy
      obtain ⟨hsome, hnz⟩ := truthy_optInt_getD htruthy
      split
      · rename_i e heq2
        obtain ⟨r2, hr2⟩ := henv.updateOk _ _
        rw [hr2] at heq2
        cases heq2
      · rename_i respId heq2
        obtain ⟨st2, r, htail, hc, hu⟩ := syncTaskTail_ok henv cfg _ task { updated := 1 } _
        refine ⟨st2, r, htail, ?_, ?_⟩
        · intro _
          refine ⟨by simp [hc], by simp [hu], ?_⟩
          have htm := syncTaskTail_eq_tasksM htail
          rw [getTaskM_congr htm task.id, getTaskM_upsertTaskM_self]
          exact hsome.symm
        · intro habs
          rw [htruthy] at habs
          cases habs
    · -- create branch
      rename_i hfalsy
      have hf : pyTruthyOptInt (getTaskM s task.id) = false := by
        simpa using hfalsy
      split
      · rename_i e heq2
        obtain ⟨r2, hr2⟩ := henv.createOk _
        rw [hr2] at heq2
        cases heq2
      · rename_i open_id heq2
        obtain ⟨st2, r, htail, hc, hu⟩ := syncTaskTail_ok henv cfg _ task { created := 1 } _
        refine ⟨st2, r, htail, ?_, ?_⟩
        · intro habs
          exact absurd habs (by simp [hf])
        · intro _
          refine ⟨by simp [hc], by simp [hu], ?_⟩
          refine ⟨_, open_id, heq2, ?_⟩
          have htm := syncTaskTail_eq_tasksM htail
          rw [getTaskM_congr htm task.id]
          exact getTaskM_upsertTaskM_self _ _ _

theorem enrichTask_ok {env : Env}
    (hcomm : ∀ tid, ∃ raws, env.getComments tid = .ok raws)
    (hfile : ∀ tid, ∃ raws, env.getFiles tid = .ok raws) (cfg : AppConfig) (task : Task) :
    ∃ t1, enrichTask env cfg task = .ok t1 ∧ t1.id = task.id := by
  unfold enrichTask
  by_cases hc : cfg.sync.sync_comments = true
  · obtain ⟨raws, hr⟩ := hcomm task.id
    simp only [hc, if_true, hr]
    by_cases ha : cfg.sync.sync_attachments = true
    · obtain ⟨raws2, hr2⟩ := hfile task.id
      simp only [ha, if_true]
      simp only [hr2]
      exact ⟨_, rfl, rfl⟩
    · have ha2 : cfg.sync.sync_attachments = false := by simpa using ha
      simp only [ha2, Bool.false_eq_true, if_false]
      exact ⟨_, rfl, rfl⟩
  · have hc2 : cfg.sync.sync_comments = false := by simpa using hc
    simp only [hc2, Bool.false_eq_true, if_false]
    by_cases ha : cfg.sync.sync_attachments = true
    · obtain ⟨raws2, hr2⟩ := hfile task.id
      simp only [ha, if_true, hr2]
      exact ⟨_, rfl, rfl⟩
    · have ha2 : cfg.sync.sync_attachments = false := by simpa using ha
      simp only [ha2, Bool.false_eq_true, if_false]
      exact ⟨_, rfl, rfl⟩

theorem mapOkAt_of_truthy {s : St} {k : String} (h : pyTruthyOptInt (getTaskM s k) = true) :
    MapOkAt s k := (mapOkAt_iff_truthy s k).mpr h

theorem syncTasksLoop_spec {env : Env} (henv : EnvOk env) (hpos : EnvPos env)
    (cfg : AppConfig) (sm : List (String × String)) (mapping : ProjectMapping) :
    ∀ (ts : List Task) (acc : SyncStats) (s : St),
      ∃ st2 res, syncTasksLoop env cfg sm mapping ts acc s = (st2, .ok res) ∧
        Preserves s st2 ∧
        (cfg.sync.dry_run = false → ∀ t ∈ ts, MapOkAt st2 t.id) ∧
        ((cfg.sync.dry_run = true ∨ ∀ t ∈ ts, MapOkAt s t.id) → res.created = acc.created) := by
  intro ts
  induction ts with
  | nil =>
    intro acc s
    exact ⟨s, acc, rfl, preserves_refl s, fun _ t ht => absurd ht (List.not_mem_nil t),
      fun _ => rfl⟩
  | cons t rest ih =>
    intro acc s
    obtain ⟨t1, ht1, hid⟩ := enrichTask_ok henv.commentsOk henv.filesOk cfg t
    by_cases hdry : cfg.sync.dry_run = true
    · obtain ⟨st2, res, hloop, hpres, hmap, hcre⟩ :=
        ih { acc with skipped := acc.skipped + 1 } s
      refine ⟨st2, res, ?_, hpres, ?_, ?_⟩
      · simp only [syncTasksLoop, ht1, hdry]
        exact hloop
      · intro hcontra
        rw [hdry] at hcontra
        cases hcontra
      · intro _
        have := hcre (Or.inl hdry)
        simpa using this
    · have hdryf : cfg.sync.dry_run = false := by simpa using hdry
      obtain ⟨stA, r, htask, hupd, hcre0⟩ := syncTask_spec henv cfg sm mapping t1 s
      have hpresA : Preserves s stA := by
        have h := syncTask_preserves env cfg sm mapping t1 s
        rw [htask] at h
        exact h
      have hmapA : MapOkAt stA t.id := by
        rw [← hid]
        cases hb : pyTruthyOptInt (getTaskM s t1.id) with
        | true =>
          obtain ⟨_, _, he⟩ := hupd hb
          apply mapOkAt_of_truthy
          rw [he]
          exact hb
        | false =>
          obtain ⟨_, _, p, cid, hcall, he⟩ := hcre0 hb
          apply mapOkAt_of_truthy
          rw [he]
          simpa [pyTruthyOptInt] using hpos p cid hcall
      obtain ⟨st2, res, hloop, hpres, hmap, hcre⟩ := ih (addStats acc r) stA
      refine ⟨st2, res, ?_, preserves_trans hpresA hpres, ?_, ?_⟩
      · simp only [syncTasksLoop, ht1, hdryf]
        simp only [Bool.false_eq_true, if_false]
        rw [htask]
        exact hloop
      · intro _
        intro t2 ht2
        rcases List.mem_cons.mp ht2 with rfl | hmem
        · exact hpres.2.2.2 t2.id hmapA
        · exact hmap hdryf t2 hmem
      · rintro (hcontra | hall)
        · rw [hdryf] at hcontra
          cases hcontra
        · have hok_t : MapOkAt s t.id := hall t (List.mem_cons_self _ _)
          have htruthy : pyTruthyOptInt (getTaskM s t1.id) = true := by
            rw [hid]
            exact (mapOkAt_iff_truthy s t.id).mp hok_t
          obtain ⟨hr0, _, _⟩ := hupd htruthy
          have hrest : ∀ t2 ∈ rest, MapOkAt stA t2.id := fun t2 h2 =>
            hpresA.2.2.2 t2.id (hall t2 (List.mem_cons_of_mem _ h2))
          have := hcre (Or.inr hrest)
          rw [this]
          simp [addStats, hr0]

theorem buildTaskDict_aux_entries :
    ∀ (raws : List RawVal) (d : List (String × Task)),
      (∀ kv ∈ d, kv.2.id = kv.1) →
      ∀ kv ∈ raws.foldl (fun d raw => upsertA d (mapTask raw).id (mapTask raw)) d,
        kv.2.id = kv.1 := by
  intro raws
  induction raws with
  | nil => intro d hd kv hkv; exact hd kv hkv
  | cons raw rest ih =>
    intro d hd kv hkv
    refine ih (upsertA d (mapTask raw).id (mapTask raw)) ?_ kv hkv
    intro kv2 hkv2
    rcases mem_upsertA hkv2 with h | h
    · exact hd kv2 h
    · rw [h]

theorem buildTaskDict_entries (raws : List RawVal) :
    ∀ kv ∈ buildTaskDict raws, kv.2.id = kv.1 :=
  buildTaskDict_aux_entries raws [] (fun kv hkv => absurd hkv (List.not_mem_nil kv))

theorem buildTaskDict_aux_nodup :
    ∀ (raws : List RawVal) (d : List (String × Task)),
      (d.map Prod.fst).Nodup →
      ((raws.foldl (fun d raw => upsertA d (mapTask raw).id (mapTask raw)) d).map Prod.fst).Nodup := by
  intro raws
  induction raws with
  | nil => intro d hd; exact hd
  | cons raw rest ih =>
    intro d hd
    exact ih _ (nodup_map_fst_upsertA d _ _ hd)

theorem buildTaskDict_nodup (raws : List RawVal) :
    ((buildTaskDict raws).map Prod.fst).Nodup :=
  buildTaskDict_aux_nodup raws [] List.nodup_nil

theorem buildTaskDict_aux_length :
    ∀ (raws : List RawVal) (d : List (String × Task)),
      (raws.map (fun r => (mapTask r).id)).Nodup →
      (∀ r ∈ raws, (mapTask r).id ∉ d.map Prod.fst) →
      (raws.foldl (fun d raw => upsertA d (mapTask raw).id (mapTask raw)) d).length =
        d.length + raws.length := by
  intro raws
  induction raws with
  | nil => intro d _ _; simp
  | cons raw rest ih =>
    intro d hnd hfresh
    simp only [List.map_cons, List.nodup_cons] at hnd
    have hlen := upsertA_length_new d (mapTask raw).id (mapTask raw)
      (hfresh raw (List.mem_cons_self _ _))
    have hstep := ih (upsertA d (mapTask raw).id (mapTask raw)) hnd.2 ?_
    · simp only [List.foldl_cons]
      rw [hstep, hlen]
      simp [List.length_cons]
      omega
    · intro r hr
      intro hmem
      rw [map_fst_upsertA] at hmem
      rcases hmem with h | h
      · exact hfresh r (List.mem_cons_of_mem _ hr) h
      · exact hnd.1 (h ▸ List.mem_map_of_mem (fun r => (mapTask r).id) hr)

theorem buildTaskDict_length (raws : List RawVal)
    (hnd : (raws.map (fun r => (mapTask r).id)).Nodup) :
    (buildTaskDict raws).length = raws.length := by
  have := buildTaskDict_aux_length raws [] hnd (by intro r _ h; cases h)
  simpa [buildTaskDict] using this

theorem mem_ordered_key {tasks : List (String × Task)} {k : String}
    (hk : k ∈ tasks.map Prod.fst) (hent : ∀ kv ∈ tasks, kv.2.id = kv.1)
    (hnd : (tasks.map Prod.fst).Nodup) :
    ∃ t ∈ orderTasks tasks, t.id = k := by
  obtain ⟨kv, hkv, hfst⟩ := List.mem_map.mp hk
  refine ⟨kv.2, ?_, by rw [hent kv hkv, hfst]⟩
  rw [(orderTasks_perm tasks hnd).mem_iff]
  exact List.mem_map_of_mem Prod.snd hkv

theorem ordered_key_mem {tasks : List (String × Task)} {t : Task}
    (ht : t ∈ orderTasks tasks) (hent : ∀ kv ∈ tasks, kv.2.id = kv.1)
    (hnd : (tasks.map Prod.fst).Nodup) :
    t.id ∈ tasks.map Prod.fst := by
  rw [(orderTasks_perm tasks hnd).mem_iff] at ht
  obtain ⟨kv, hkv, hsnd⟩ := List.mem_map.mp ht
  rw [← hsnd, hent kv hkv]
  exact List.mem_map_of_mem Prod.fst hkv

theorem syncProject_spec {env : Env} (henv : EnvOk env) (hpos : EnvPos env)
    (cfg : AppConfig) (sm : List (String × String)) (m : ProjectMapping)
    (since : Option Nat) (s : St) :
    ∃ st2 stats, syncProject env cfg sm m since s = (st2, .ok stats) ∧
      Preserves s st2 ∧
      (∀ raws, env.iterProjectTasks m.megaplan_id cfg.sync.page_size since = .ok raws →
        (cfg.sync.dry_run = false →
          ∀ k ∈ (buildTaskDict raws).map Prod.fst, MapOkAt st2 k) ∧
        ((cfg.sync.dry_run = true ∨
            ∀ k ∈ (buildTaskDict raws).map Prod.fst, MapOkAt s k) → stats.created = 0)) := by
  unfold syncProject
  rw [henv.authOk]
  obtain ⟨raws, hiter⟩ := henv.iterOk m.megaplan_id cfg.sync.page_size since
  rw [hiter]
  by_cases hemp : raws.isEmpty
  · refine ⟨s, {}, by simp [hemp], preserves_refl s, ?_⟩
    intro raws2 hiter2
    injection hiter2 with he
    subst he
    have : raws = [] := List.isEmpty_iff.mp hemp
    subst this
    constructor
    · intro _ k hk
      simp [buildTaskDict] at hk
    · intro _
      rfl
  · have hemp2 : raws.isEmpty = false := by simpa using hemp
    simp only [hemp2, Bool.false_eq_true, if_false]
    obtain ⟨st2, res, hloop, hpres, hmap, hcre⟩ :=
      syncTasksLoop_spec henv hpos cfg sm m (orderTasks (buildTaskDict raws)) {} s
    refine ⟨st2, res, hloop, hpres, ?_⟩
    intro raws2 hiter2
    injection hiter2 with he
    subst he
    constructor
    · intro hdry k hk
      obtain ⟨t, htmem, htid⟩ := mem_ordered_key hk (buildTaskDict_entries raws)
        (buildTaskDict_nodup raws)
      rw [← htid]
      exact hmap hdry t htmem
    · rintro (hdry | hall)
      · exact hcre (Or.inl hdry)
      · refine hcre (Or.inr ?_)
        intro t htmem
        exact hall t.id (ordered_key_mem htmem (buildTaskDict_entries raws)
          (buildTaskDict_nodup raws))

theorem syncTasksLoop_preserves (env : Env) (cfg : AppConfig) (sm : List (String × String))
    (mapping : ProjectMapping) :
    ∀ (ts : List Task) (acc : SyncStats) (s : St),
      Preserves s (syncTasksLoop env cfg sm mapping ts acc s).1 := by
  intro ts
  induction ts with
  | nil => intro acc s; exact preserves_refl s
  | cons t rest ih =>
    intro acc s
    simp only [syncTasksLoop]
    split
    · exact preserves_refl s
    · rename_i t1 heq1
      split
      · exact ih _ s
      · split
        · rename_i s2 e heq
          have h := syncTask_preserves env cfg sm mapping t1 s
          rw [heq] at h
          exact h
        · rename_i s2 r heq
          have h := syncTask_preserves env cfg sm mapping t1 s
          rw [heq] at h
          exact preserves_trans h (ih _ _)

theorem syncProject_preserves (env : Env) (cfg : AppConfig) (sm : List (String × String))
    (m : ProjectMapping) (since : Option Nat) (s : St) :
    Preserves s (syncProject env cfg sm m since s).1 := by
  unfold syncProject
  repeat' split
  all_goals first
    | exact preserves_refl _
    | exact syncTasksLoop_preserves env cfg sm m _ _ _

theorem isSome_lookupA_upsertA {α : Type} (l : List (String × α)) (k k' : String) (v : α)
    (h : (lookupA l k').isSome) : (lookupA (upsertA l k v) k').isSome := by
  by_cases he : k = k'
  · subst he
    simp [lookupA_upsertA_self]
  · rw [lookupA_upsertA_ne l k k' v he]
    exact h

theorem initialMigrationLoop_watermarks (env : Env) (cfg : AppConfig)
    (sm : List (String × String)) :
    ∀ (ms : List ProjectMapping) (results : List (String × SyncStats)) (s : St)
      (st2 : St) (res : List (String × SyncStats)),
      initialMigrationLoop env cfg sm ms results s = (st2, .ok res) →
      (∀ m ∈ ms, ∃ t, lookupA st2.lastSyncM m.megaplan_id = some t ∧ s.clock ≤ t) ∧
      (∀ p t0, lookupA s.lastSyncM p = some t0 →
        ∃ t, lookupA st2.lastSyncM p = some t ∧ (t = t0 ∨ s.clock ≤ t)) ∧
      s.clock ≤ st2.clock := by
  intro ms
  induction ms with
  | nil =>
    intro results s st2 res heq
    simp only [initialMigrationLoop] at heq
    injection heq with h1 h2
    subst h1
    exact ⟨fun m hm => absurd hm (List.not_mem_nil m),
      fun p t0 h => ⟨t0, h, Or.inl rfl⟩, Nat.le_refl _⟩
  | cons m rest ih =>
    intro results s st2 res heq
    simp only [initialMigrationLoop] at heq
    split at heq
    · cases heq
    · rename_i s1 stats hproj
      have hpres : Preserves s s1 := by
        have h := syncProject_preserves env cfg sm m none s
        rw [hproj] at h
        exact h
      obtain ⟨ih1, ih2, ih3⟩ := ih _ _ _ _ heq
      have hclock1 : s.clock ≤ s1.clock := hpres.1
      have hlast1 : s1.lastSyncM = s.lastSyncM := hpres.2.1
      refine ⟨?_, ?_, ?_⟩
      · intro m2 hm2
        rcases List.mem_cons.mp hm2 with rfl | hmem
        · -- the project just processed: its watermark was set to s1.clock
          have hself : lookupA (setLastSyncM (utcnow s1).1 m2.megaplan_id (utcnow s1).2).lastSyncM
              m2.megaplan_id = some s1.clock := by
            simp [setLastSyncM, utcnow, lookupA_upsertA_self]
          obtain ⟨t, ht, hor⟩ := ih2 m2.megaplan_id s1.clock hself
          refine ⟨t, ht, ?_⟩
          rcases hor with rfl | hge
          · exact hclock1
          · have : (setLastSyncM (utcnow s1).1 m2.megaplan_id (utcnow s1).2).clock = s1.clock + 1 := rfl
            rw [this] at hge
            omega
        · obtain ⟨t, ht, hge⟩ := ih1 m2 hmem
          refine ⟨t, ht, ?_⟩
          have : (setLastSyncM (utcnow s1).1 m.megaplan_id (utcnow s1).2).clock = s1.clock + 1 := rfl
          rw [this] at hge
          omega
      · intro p t0 h0
        by_cases hp : m.megaplan_id = p
        · subst hp
          have hself : lookupA (setLastSyncM (utcnow s1).1 m.megaplan_id (utcnow s1).2).lastSyncM
              m.megaplan_id = some s1.clock := by
            simp [setLastSyncM, utcnow, lookupA_upsertA_self]
          obtain ⟨t, ht, hor⟩ := ih2 m.megaplan_id s1.clock hself
          refine ⟨t, ht, Or.inr ?_⟩
          rcases hor with rfl | hge
          · exact hclock1
          · have : (setLastSyncM (utcnow s1).1 m.megaplan_id (utcnow s1).2).clock = s1.clock + 1 := rfl
            rw [this] at hge
            omega
        · have hkeep : lookupA (setLastSyncM (utcnow s1).1 m.megaplan_id (utcnow s1).2).lastSyncM p
              = some t0 := by
            simp only [setLastSyncM, utcnow]
            rw [lookupA_upsertA_ne _ _ _ _ hp]
            rw [show ((⟨s1.clock + 1, s1.tasksM, s1.usersM, s1.attachM, s1.commentM,
              s1.lastSyncM, s1.events⟩ : St)).lastSyncM = s1.lastSyncM from rfl, hlast1]
            exact h0
          obtain ⟨t, ht, hor⟩ := ih2 p t0 hkeep
          refine ⟨t, ht, ?_⟩
          rcases hor with rfl | hge
          · exact Or.inl rfl
          · refine Or.inr ?_
            have : (setLastSyncM (utcnow s1).1 m.megaplan_id (utcnow s1).2).clock = s1.clock + 1 := rfl
            rw [this] at hge
            omega
      · have : (setLastSyncM (utcnow s1).1 m.megaplan_id (utcnow s1).2).clock = s1.clock + 1 := rfl
        rw [this] at ih3
        omega

theorem incrementalSyncLoop_preserves (env : Env) (cfg : AppConfig)
    (sm : List (String × String)) (since : Option Nat) :
    ∀ (ms : List ProjectMapping) (results : List (String × SyncStats)) (s : St),
      (∀ k, (lookupA s.tasksM k).isSome →
        (lookupA (incrementalSyncLoop env cfg sm since ms results s).1.tasksM k).isSome) ∧
      (∀ p, (lookupA s.lastSyncM p).isSome →
        (lookupA (incrementalSyncLoop env cfg sm since ms results s).1.lastSyncM p).isSome) := by
  intro ms
  induction ms with
  | nil => intro results s; exact ⟨fun _ h => h, fun _ h => h⟩
  | cons m rest ih =>
    intro results s
    simp only [incrementalSyncLoop]
    generalize (match since with
      | some t => some t
      | none => getLastSyncM s m.megaplan_id) = psince
    split
    · rename_i s1 e hproj
      have h := syncProject_preserves env cfg sm m psince s
      rw [hproj] at h
      exact ⟨fun k hk => h.2.2.1 k hk, fun p hp => by rw [h.2.1]; exact hp⟩
    · rename_i s1 stats hproj
      have h := syncProject_preserves env cfg sm m psince s
      rw [hproj] at h
      obtain ⟨ih1, ih2⟩ := ih (upsertA results m.megaplan_id stats)
        (setLastSyncM (utcnow s1).1 m.megaplan_id (utcnow s1).2)
      constructor
      · intro k hk
        exact ih1 k (h.2.2.1 k hk)
      · intro p hp
        refine ih2 p ?_
        have hp1 : (lookupA s1.lastSyncM p).isSome := by
          rw [h.2.1]
          exact hp
        exact isSome_lookupA_upsertA _ _ _ _ hp1

/-- Every task id a full fetch of one of the given projects would deliver
already has a truthy mapping in the store. -/
def AllMapped (env : Env) (cfg : AppConfig) (ms : List ProjectMapping) (s : St) : Prop :=
  ∀ m ∈ ms, ∀ raws,
    env.iterProjectTasks m.megaplan_id cfg.sync.page_size none = .ok raws →
    ∀ k ∈ (buildTaskDict raws).map Prod.fst, MapOkAt s k

theorem initialMigrationLoop_spec {env : Env} (henv : EnvOk env) (hpos : EnvPos env)
    (cfg : AppConfig) (sm : List (String × String)) :
    ∀ (ms : List ProjectMapping) (results : List (String × SyncStats)) (s : St),
      ∃ st2 res, initialMigrationLoop env cfg sm ms results s = (st2, .ok res) ∧
        (∀ k, MapOkAt s k → MapOkAt st2 k) ∧
        (cfg.sync.dry_run = false → AllMapped env cfg ms st2) ∧
        ((cfg.sync.dry_run = true ∨ AllMapped env cfg ms s) →
          ∀ pr ∈ res, pr ∈ results ∨ pr.2.created = 0) := by
  intro ms
  induction ms with
  | nil =>
    intro results s
    exact ⟨s, results, rfl, fun _ h => h,
      fun _ m hm => absurd hm (List.not_mem_nil m),
      fun _ pr hpr => Or.inl hpr⟩
  | cons m rest ih =>
    intro results s
    obtain ⟨s1, stats, hproj, hpres, hpost⟩ := syncProject_spec henv hpos cfg sm m none s
    set s3 := setLastSyncM (utcnow s1).1 m.megaplan_id (utcnow s1).2 with hs3
    have hs3task : s3.tasksM = s1.tasksM := rfl
    have hok13 : ∀ k, MapOkAt s1 k → MapOkAt s3 k := by
      intro k hk
      rw [mapOkAt_congr hs3task]
      exact hk
    obtain ⟨st2, res, hloop, hkeep, hall, hcre⟩ := ih (upsertA results m.megaplan_id stats) s3
    refine ⟨st2, res, ?_, ?_, ?_, ?_⟩
    · simp only [initialMigrationLoop, hproj]
      exact hloop
    · intro k hk
      exact hkeep k (hok13 k (hpres.2.2.2 k hk))
    · intro hdry
      intro m2 hm2 raws hiter k hk
      rcases List.mem_cons.mp hm2 with rfl | hmem
      · exact hkeep k (hok13 k ((hpost raws hiter).1 hdry k hk))
      · exact hall hdry m2 hmem raws hiter k hk
    · rintro hpre pr hpr
      have hpre3 : cfg.sync.dry_run = true ∨ AllMapped env cfg rest s3 := by
        rcases hpre with hdry | hmap
        · exact Or.inl hdry
        · refine Or.inr ?_
          intro m2 hm2 raws hiter k hk
          exact hok13 k (hpres.2.2.2 k (hmap m2 (List.mem_cons_of_mem _ hm2) raws hiter k hk))
      have hstats0 : stats.created = 0 := by
        rcases hpre with hdry | hmap
        · obtain ⟨raws, hiter⟩ := henv.iterOk m.megaplan_id cfg.sync.page_size none
          exact (hpost raws hiter).2 (Or.inl hdry)
        · obtain ⟨raws, hiter⟩ := henv.iterOk m.megaplan_id cfg.sync.page_size none
          exact (hpost raws hiter).2 (Or.inr (hmap m (List.mem_cons_self _ _) raws hiter))
      rcases hcre hpre3 pr hpr with hin | hzero
      · rcases mem_upsertA hin with hin2 | hins
        · exact Or.inl hin2
        · refine Or.inr ?_
          rw [hins]
          exact hstats0
      · exact Or.inr hzero

theorem syncTasksLoop_dry {env : Env} {cfg : AppConfig} (hdry : cfg.sync.dry_run = true)
    (hcomm : ∀ tid, ∃ raws, env.getComments tid = .ok raws)
    (hfile : ∀ tid, ∃ raws, env.getFiles tid = .ok raws)
    (sm : List (String × String)) (mapping : ProjectMapping) :
    ∀ (ts : List Task) (acc : SyncStats) (s : St),
      syncTasksLoop env cfg sm mapping ts acc s =
        (s, .ok { acc with skipped := acc.skipped + ts.length }) := by
  intro ts
  induction ts with
  | nil => intro acc s; simp [syncTasksLoop]
  | cons t rest ih =>
    intro acc s
    obtain ⟨t1, ht1, _⟩ := enrichTask_ok hcomm hfile cfg t
    simp only [syncTasksLoop, ht1, hdry, if_true]
    rw [ih]
    simp only [List.length_cons]
    rw [show acc.skipped + (rest.length + 1) = acc.skipped + 1 + rest.length from by omega]

theorem syncProject_dry {env : Env} {cfg : AppConfig} (hdry : cfg.sync.dry_run = true)
    (hauth : env.authenticate = .ok ())
    (hcomm : ∀ tid, ∃ raws, env.getComments tid = .ok raws)
    (hfile : ∀ tid, ∃ raws, env.getFiles tid = .ok raws)
    (sm : List (String × String)) (m : ProjectMapping) (since : Option Nat) (s : St)
    (raws : List RawVal)
    (hiter : env.iterProjectTasks m.megaplan_id cfg.sync.page_size since = .ok raws) :
    syncProject env cfg sm m since s =
      (s, .ok { skipped := (orderTasks (buildTaskDict raws)).length }) := by
  unfold syncProject
  rw [hauth, hiter]
  by_cases hemp : raws.isEmpty
  · have : raws = [] := List.isEmpty_iff.mp hemp
    subst this
    simp only [hemp, if_true]
    have : orderTasks (buildTaskDict []) = [] := rfl
    rw [this]
    rfl
  · have hemp2 : raws.isEmpty = false := by simpa using hemp
    simp only [hemp2, Bool.false_eq_true, if_false]
    rw [syncTasksLoop_dry hdry hcomm hfile]
    simp

theorem dry_skipped_eq_fetched {raws : List RawVal}
    (hnd : (raws.map (fun r => (mapTask r).id)).Nodup) :
    (orderTasks (buildTaskDict raws)).length = raws.length := by
  rw [(orderTasks_perm (buildTaskDict raws) (buildTaskDict_nodup raws)).length_eq,
    List.length_map]
  exact buildTaskDict_length raws hnd

theorem initialMigrationLoop_dry {env : Env} {cfg : AppConfig}
    (hdry : cfg.sync.dry_run = true) (hauth : env.authenticate = .ok ())
    (hiter : ∀ p n t, ∃ raws, env.iterProjectTasks p n t = .ok raws)
    (hcomm : ∀ tid, ∃ raws, env.getComments tid = .ok raws)
    (hfile : ∀ tid, ∃ raws, env.getFiles tid = .ok raws)
    (sm : List (String × String)) :
    ∀ (ms : List ProjectMapping) (results : List (String × SyncStats)) (s : St),
      ∃ st2 res, initialMigrationLoop env cfg sm ms results s = (st2, .ok res) ∧
        st2.tasksM = s.tasksM ∧ st2.usersM = s.usersM ∧ st2.attachM = s.attachM ∧
        st2.commentM = s.commentM ∧ st2.events = s.events ∧
        (∀ pr ∈ res, pr ∈ results ∨
          ∀ raws, env.iterProjectTasks pr.1 cfg.sync.page_size none = .ok raws →
            pr.2.skipped = (orderTasks (buildTaskDict raws)).length) := by
  intro ms
  induction ms with
  | nil =>
    intro results s
    exact ⟨s, results, rfl, rfl, rfl, rfl, rfl, rfl, fun pr hpr => Or.inl hpr⟩
  | cons m rest ih =>
    intro results s
    obtain ⟨raws, hiterm⟩ := hiter m.megaplan_id cfg.sync.page_size none
    have hproj := syncProject_dry hdry hauth hcomm hfile sm m none s raws hiterm
    obtain ⟨st2, res, hloop, h1, h2, h3, h4, h5, h6⟩ :=
      ih (upsertA results m.megaplan_id ({ skipped := (orderTasks (buildTaskDict raws)).length }))
        (setLastSyncM (utcnow s).1 m.megaplan_id (utcnow s).2)
    refine ⟨st2, res, ?_, h1, h2, h3, h4, h5, ?_⟩
    · simp only [initialMigrationLoop, hproj]
      exact hloop
    · intro pr hpr
      rcases h6 pr hpr with hin | hprop
      · rcases mem_upsertA hin with hin2 | hins
        · exact Or.inl hin2
        · refine Or.inr ?_
          subst hins
          intro raws2 hiter2
          dsimp only at hiter2 ⊢
          rw [hiterm] at hiter2
          injection hiter2 with he
          rw [he]
      · exact Or.inr hprop

theorem string_append_cancel_left (s : String) {a b : String} (h : s ++ a = s ++ b) :
    a = b := by
  have hd := congrArg String.data h
  simp only [String.data_append] at hd
  have := List.append_cancel_left hd
  exact String.ext this

/-- The event does not concern the given attachment: it is not its
download and not the upload of its temp file. -/
def eventNotAbout (cfg : AppConfig) (a : Attachment) : Event → Prop
  | .downloadFile fid _ => fid ≠ a.id
  | .uploadAttachment _ path => path ≠ cfg.sync.tmp_dir ++ "/" ++ a.filename
  | _ => True

theorem syncAttachmentsLoop_gate {env : Env} (henv : EnvOk env) (cfg : AppConfig) (wp : Int)
    (a : Attachment) :
    ∀ (l : List Attachment) (n : Nat) (s : St),
      (∀ b ∈ l, b.id = a.id → (b.size : ℚ) > cfg.sync.attachment_max_mb * 1024 * 1024) →
      (∀ b ∈ l, b.filename = a.filename →
        (b.size : ℚ) > cfg.sync.attachment_max_mb * 1024 * 1024) →
      (∃ m, (syncAttachmentsLoop env cfg wp l n s).2 = .ok m) ∧
      lookupA (syncAttachmentsLoop env cfg wp l n s).1.attachM a.id = lookupA s.attachM a.id ∧
      ∃ delta, (syncAttachmentsLoop env cfg wp l n s).1.events = s.events ++ delta ∧
        ∀ e ∈ delta, eventNotAbout cfg a e := by
  intro l
  induction l with
  | nil =>
    intro n s _ _
    exact ⟨⟨n, rfl⟩, rfl, [], by simp [syncAttachmentsLoop], fun e he => absurd he (List.not_mem_nil e)⟩
  | cons b rest ih =>
    intro n s hid hfn
    have hidr : ∀ c ∈ rest, c.id = a.id → (c.size : ℚ) > cfg.sync.attachment_max_mb * 1024 * 1024 :=
      fun c hc => hid c (List.mem_cons_of_mem _ hc)
    have hfnr : ∀ c ∈ rest, c.filename = a.filename →
        (c.size : ℚ) > cfg.sync.attachment_max_mb * 1024 * 1024 :=
      fun c hc => hfn c (List.mem_cons_of_mem _ hc)
    simp only [syncAttachmentsLoop]
    split
    · exact ih n s hidr hfnr
    · split
      · exact ih n s hidr hfnr
      · rename_i hnotgate hnotmapped
        have hbid : b.id ≠ a.id := by
          intro he
          exact hnotgate (hid b (List.mem_cons_self _ _) he)
        have hbfn : b.filename ≠ a.filename := by
          intro he
          exact hnotgate (hfn b (List.mem_cons_self _ _) he)
        have hu := henv.downloadOk b.id (cfg.sync.tmp_dir ++ "/" ++ b.filename)
        rw [hu]
        obtain ⟨attid, hup⟩ := henv.uploadOk wp (cfg.sync.tmp_dir ++ "/" ++ b.filename)
        rw [hup]
        obtain ⟨ihok, ihlook, delta, ihev, ihprop⟩ := ih (n + 1)
          (upsertAttachmentM (logEvent (Event.uploadAttachment wp
            (cfg.sync.tmp_dir ++ "/" ++ b.filename))
            (logEvent (Event.downloadFile b.id (cfg.sync.tmp_dir ++ "/" ++ b.filename)) s))
            b.id attid) hidr hfnr
        refine ⟨ihok, ?_, ?_⟩
        · rw [ihlook]
          show lookupA (upsertA _ b.id _) a.id = _
          rw [lookupA_upsertA_ne _ _ _ _ hbid]
          rfl
        · refine ⟨Event.downloadFile b.id (cfg.sync.tmp_dir ++ "/" ++ b.filename) ::
            Event.uploadAttachment wp (cfg.sync.tmp_dir ++ "/" ++ b.filename) :: delta, ?_, ?_⟩
          · rw [ihev]
            show (s.events ++ [_]) ++ [_] ++ delta = _
            simp [List.append_assoc]
          · intro e he
            rcases List.mem_cons.mp he with rfl | he2
            · exact hbid
            · rcases List.mem_cons.mp he2 with rfl | he3
              · intro hpath
                exact hbfn (string_append_cancel_left _ hpath)
              · exact ihprop e he3

/-- Environment whose every remote call succeeds with simple fixed
responses. -/
def okEnv : Env :=
  { authenticate := .ok ()
    iterProjectTasks := fun _ _ _ => .ok []
    getComments := fun _ => .ok []
    getFiles := fun _ => .ok []
    downloadFile := fun _ _ => .ok ()
    getUsers := fun _ => .ok []
    ensureUser := fun _ => .ok 5
    createWorkPackage := fun _ => .ok 101
    updateWorkPackage := fun _ _ => .ok none
    createComment := fun _ _ => .ok (some 7)
    uploadAttachment := fun _ _ => .ok 9 }

theorem okEnv_envOk : EnvOk okEnv :=
  ⟨rfl, fun _ _ _ => ⟨[], rfl⟩, fun _ => ⟨[], rfl⟩, fun _ => ⟨[], rfl⟩, fun _ _ => rfl,
   fun _ => ⟨[], rfl⟩, fun _ => ⟨5, rfl⟩, fun _ => ⟨101, rfl⟩, fun _ _ => ⟨none, rfl⟩,
   fun _ _ => ⟨some 7, rfl⟩, fun _ _ => ⟨9, rfl⟩⟩

theorem okEnv_envPos : EnvPos okEnv := by
  intro p n h
  injection h with he
  subst he
  decide

/-- Configuration with a default assignee and no projects. -/
def exCfg : AppConfig :=
  { openproject := { default_user_id := some 99 }, projects := [], sync := {} }

/-- Environment whose user-profile fetch returns a non-2xx response. -/
def usersFailEnv : Env :=
  { okEnv with getUsers := fun _ => .error (.remote "users 500") }

/-- Claim C6, counterexample: when the user fetch raises a RemoteError
(non-2xx), _resolve_user propagates the exception instead of falling back
to the default user id, so the failure does abort the task. -/
theorem claim_C6_counterexample :
    resolveUser usersFailEnv exCfg (some "u1") ({} : St) =
      (({} : St), .error (.remote "users 500")) ∧
    (Except.error (Err.remote "users 500") : Except Err (Option Int)) ≠
      .ok exCfg.openproject.default_user_id := by
  exact ⟨rfl, fun h => Except.noConfusion h⟩

/-- Claim C6 as amended: only a user fetch that succeeds with an empty
result list is downgraded (logged warning) to the configured default
target user id, leaving the store untouched; a fetch that raises
RemoteError propagates and aborts the task (see the counterexample). -/
theorem claim_C6_empty_user_fetch_falls_back :
    ∀ (env : Env) (cfg : AppConfig) (uid : String) (s : St),
      uid ≠ "" → getUserM s uid = none → env.getUsers [uid] = .ok [] →
      resolveUser env cfg (some uid) s = (s, .ok cfg.openproject.default_user_id) := by
  intro env cfg uid s hne hcache hfetch
  unfold resolveUser
  have h1 : pyTruthyOptStr (some uid) = true := by simp [pyTruthyOptStr, hne]
  simp only [h1, Bool.not_true, Bool.false_eq_true, if_false]
  dsimp only [Option.getD_some]
  rw [hcache]
  simp only [pyTruthyOptInt, Bool.false_eq_true, if_false]
  rw [hfetch]

theorem claim_C6_witness :
    resolveUser okEnv exCfg (some "u1") ({} : St) =
      (({} : St), .ok exCfg.openproject.default_user_id) :=
  claim_C6_empty_user_fetch_falls_back okEnv exCfg "u1" {} (by decide) rfl rfl

/-- Claim C8: an attachment whose size exceeds the configured ceiling is
neither downloaded nor uploaded, adds no record to the Identity Store,
and the attachment sync still completes. -/
theorem claim_C8_attachment_size_gate :
    ∀ (env : Env) (cfg : AppConfig) (wp : Int) (task : Task) (s : St) (a : Attachment),
      EnvOk env → a ∈ task.attachments →
      (a.size : ℚ) > cfg.sync.attachment_max_mb * 1024 * 1024 →
      (task.attachments.map Attachment.id).Nodup →
      (task.attachments.map Attachment.filename).Nodup →
      (∃ m, (syncAttachments env cfg wp task s).2 = .ok m) ∧
      lookupA (syncAttachments env cfg wp task s).1.attachM a.id = lookupA s.attachM a.id ∧
      ∃ delta, (syncAttachments env cfg wp task s).1.events = s.events ++ delta ∧
        ∀ e ∈ delta, eventNotAbout cfg a e := by
  intro env cfg wp task s a henv hmem hgate hndid hndfn
  refine syncAttachmentsLoop_gate henv cfg wp a task.attachments 0 s ?_ ?_
  · intro b hb hbid
    have : b = a := List.inj_on_of_nodup_map hndid hb hmem hbid
    rw [this]
    exact hgate
  · intro b hb hbfn
    have : b = a := List.inj_on_of_nodup_map hndfn hb hmem hbfn
    rw [this]
    exact hgate

/-- Oversized test attachment (cfg ceiling 0 MB). -/
def bigAtt : Attachment := { id := "f1", filename := "big.bin", size := 1, download_url := "" }

/-- Task carrying the oversized attachment. -/
def attTask : Task :=
  { id := "t1", project_id := "", name := "n", description := "", status := "unknown",
    attachments := [bigAtt] }

/-- Configuration whose attachment ceiling is 0 MB. -/
def zeroAttCfg : AppConfig :=
  { openproject := {}, projects := [], sync := { attachment_max_mb := 0 } }

theorem claim_C8_witness :
    (∃ m, (syncAttachments okEnv zeroAttCfg 3 attTask ({} : St)).2 = .ok m) ∧
    lookupA (syncAttachments okEnv zeroAttCfg 3 attTask ({} : St)).1.attachM "f1" =
      lookupA ({} : St).attachM "f1" ∧
    ∃ delta, (syncAttachments okEnv zeroAttCfg 3 attTask ({} : St)).1.events =
        ({} : St).events ++ delta ∧
      ∀ e ∈ delta, eventNotAbout zeroAttCfg bigAtt e := by
  have h := claim_C8_attachment_size_gate okEnv zeroAttCfg 3 attTask {} bigAtt okEnv_envOk
    (by decide) (by simp [bigAtt, zeroAttCfg]) (by decide) (by decide)
  exact h

theorem incrementalSyncLoop_watermarks (env : Env) (cfg : AppConfig)
    (sm : List (String × String)) (since : Option Nat) :
    ∀ (ms : List ProjectMapping) (results : List (String × SyncStats)) (s : St)
      (st2 : St) (res : List (String × SyncStats)),
      incrementalSyncLoop env cfg sm since ms results s = (st2, .ok res) →
      (∀ m ∈ ms, ∃ t, lookupA st2.lastSyncM m.megaplan_id = some t ∧ s.clock ≤ t) ∧
      (∀ p t0, lookupA s.lastSyncM p = some t0 →
        ∃ t, lookupA st2.lastSyncM p = some t ∧ (t = t0 ∨ s.clock ≤ t)) ∧
      s.clock ≤ st2.clock := by
  intro ms
  induction ms with
  | nil =>
    intro results s st2 res heq
    simp only [incrementalSyncLoop] at heq
    injection heq with h1 h2
    subst h1
    exact ⟨fun m hm => absurd hm (List.not_mem_nil m),
      fun p t0 h => ⟨t0, h, Or.inl rfl⟩, Nat.le_refl _⟩
  | cons m rest ih =>
    intro results s st2 res heq
    simp only [incrementalSyncLoop] at heq
    generalize hg : (match since with
      | some t => some t
      | none => getLastSyncM s m.megaplan_id) = ps at heq
    split at heq
    · cases heq
    · rename_i s1 stats hproj
      have hpres : Preserves s s1 := by
        have h := syncProject_preserves env cfg sm m ps s
        rw [hproj] at h
        exact h
      obtain ⟨ih1, ih2, ih3⟩ := ih _ _ _ _ heq
      have hclock1 : s.clock ≤ s1.clock := hpres.1
      have hlast1 : s1.lastSyncM = s.lastSyncM := hpres.2.1
      refine ⟨?_, ?_, ?_⟩
      · intro m2 hm2
        rcases List.mem_cons.mp hm2 with rfl | hmem
        · have hself : lookupA (setLastSyncM (utcnow s1).1 m2.megaplan_id (utcnow s1).2).lastSyncM
              m2.megaplan_id = some s1.clock := by
            simp [setLastSyncM, utcnow, lookupA_upsertA_self]
          obtain ⟨t, ht, hor⟩ := ih2 m2.megaplan_id s1.clock hself
          refine ⟨t, ht, ?_⟩
          rcases hor with rfl | hge
          · exact hclock1
          · have : (setLastSyncM (utcnow s1).1 m2.megaplan_id (utcnow s1).2).clock = s1.clock + 1 := rfl
            rw [this] at hge
            omega
        · obtain ⟨t, ht, hge⟩ := ih1 m2 hmem
          refine ⟨t, ht, ?_⟩
          have : (setLastSyncM (utcnow s1).1 m.megaplan_id (utcnow s1).2).clock = s1.clock + 1 := rfl
          rw [this] at hge
          omega
      · intro p t0 h0
        by_cases hp : m.megaplan_id = p
        · subst hp
          have hself : lookupA (setLastSyncM (utcnow s1).1 m.megaplan_id (utcnow s1).2).lastSyncM
              m.megaplan_id = some s1.clock := by
            simp [setLastSyncM, utcnow, lookupA_upsertA_self]
          obtain ⟨t, ht, hor⟩ := ih2 m.megaplan_id s1.clock hself
          refine ⟨t, ht, Or.inr ?_⟩
          rcases hor with rfl | hge
          · exact hclock1
          · have : (setLastSyncM (utcnow s1).1 m.megaplan_id (utcnow s1).2).clock = s1.clock + 1 := rfl
            rw [this] at hge
            omega
        · have hkeep : lookupA (setLastSyncM (utcnow s1).1 m.megaplan_id (utcnow s1).2).lastSyncM p
              = some t0 := by
            simp only [setLastSyncM, utcnow]
            rw [lookupA_upsertA_ne _ _ _ _ hp]
            rw [show ((⟨s1.clock + 1, s1.tasksM, s1.usersM, s1.attachM, s1.commentM,
              s1.lastSyncM, s1.events⟩ : St)).lastSyncM = s1.lastSyncM from rfl, hlast1]
            exact h0
          obtain ⟨t, ht, hor⟩ := ih2 p t0 hkeep
          refine ⟨t, ht, ?_⟩
          rcases hor with rfl | hge
          · exact Or.inl rfl
          · refine Or.inr ?_
            have : (setLastSyncM (utcnow s1).1 m.megaplan_id (utcnow s1).2).clock = s1.clock + 1 := rfl
            rw [this] at hge
            omega
      · have : (setLastSyncM (utcnow s1).1 m.megaplan_id (utcnow s1).2).clock = s1.clock + 1 := rfl
        rw [this] at ih3
        omega

theorem incrementalSyncLoop_dry {env : Env} {cfg : AppConfig}
    (hdry : cfg.sync.dry_run = true) (hauth : env.authenticate = .ok ())
    (hiter : ∀ p n t, ∃ raws, env.iterProjectTasks p n t = .ok raws)
    (hcomm : ∀ tid, ∃ raws, env.getComments tid = .ok raws)
    (hfile : ∀ tid, ∃ raws, env.getFiles tid = .ok raws)
    (sm : List (String × String)) (since : Option Nat) :
    ∀ (ms : List ProjectMapping) (results : List (String × SyncStats)) (s : St),
      ∃ st2 res, incrementalSyncLoop env cfg sm since ms results s = (st2, .ok res) ∧
        st2.tasksM = s.tasksM ∧ st2.usersM = s.usersM ∧ st2.attachM = s.attachM ∧
        st2.commentM = s.commentM ∧ st2.events = s.events ∧
        (∀ pr ∈ res, pr ∈ results ∨ ∃ win raws,
          env.iterProjectTasks pr.1 cfg.sync.page_size win = .ok raws ∧
          pr.2.skipped = (orderTasks (buildTaskDict raws)).length) := by
  intro ms
  induction ms with
  | nil =>
    intro results s
    exact ⟨s, results, rfl, rfl, rfl, rfl, rfl, rfl, fun pr hpr => Or.inl hpr⟩
  | cons m rest ih =>
    intro results s
    simp only [incrementalSyncLoop]
    generalize (match since with
      | some t => some t
      | none => getLastSyncM s m.megaplan_id) = ps
    obtain ⟨raws, hiterm⟩ := hiter m.megaplan_id cfg.sync.page_size ps
    have hproj := syncProject_dry hdry hauth hcomm hfile sm m ps s raws hiterm
    obtain ⟨st2, res, hloop, h1, h2, h3, h4, h5, h6⟩ :=
      ih (upsertA results m.megaplan_id ({ skipped := (orderTasks (buildTaskDict raws)).length }))
        (setLastSyncM (utcnow s).1 m.megaplan_id (utcnow s).2)
    refine ⟨st2, res, ?_, h1, h2, h3, h4, h5, ?_⟩
    · simp only [hproj]
      exact hloop
    · intro pr hpr
      rcases h6 pr hpr with hin | hprop
      · rcases mem_upsertA hin with hin2 | hins
        · exact Or.inl hin2
        · refine Or.inr ?_
          subst hins
          exact ⟨ps, raws, hiterm, rfl⟩
      · exact Or.inr hprop

/-- Claim C7: with dry-run enabled, a run - full migration or incremental
sync - performs no target mutation and no download (the event log is
unchanged), writes nothing to the four Identity Store tables, and each
project's skipped count equals the number of tasks its fetch delivered
(given the source-guaranteed uniqueness of task ids in a batch). -/
theorem claim_C7_dry_run_purity :
    (∀ (env : Env) (cfg : AppConfig) (sm : List (String × String)) (s : St),
      cfg.sync.dry_run = true →
      env.authenticate = .ok () →
      (∀ p n t, ∃ raws, env.iterProjectTasks p n t = .ok raws) →
      (∀ tid, ∃ raws, env.getComments tid = .ok raws) →
      (∀ tid, ∃ raws, env.getFiles tid = .ok raws) →
      ∃ st2 res, initialMigration env cfg sm s = (st2, .ok res) ∧
        st2.tasksM = s.tasksM ∧ st2.usersM = s.usersM ∧ st2.attachM = s.attachM ∧
        st2.commentM = s.commentM ∧ st2.events = s.events ∧
        (∀ pr ∈ res, ∀ raws,
          env.iterProjectTasks pr.1 cfg.sync.page_size none = .ok raws →
          (raws.map (fun r => (mapTask r).id)).Nodup →
          pr.2.skipped = raws.length)) ∧
    (∀ (env : Env) (cfg : AppConfig) (sm : List (String × String)) (since : Option Nat)
      (s : St),
      cfg.sync.dry_run = true →
      env.authenticate = .ok () →
      (∀ p n t, ∃ raws, env.iterProjectTasks p n t = .ok raws) →
      (∀ tid, ∃ raws, env.getComments tid = .ok raws) →
      (∀ tid, ∃ raws, env.getFiles tid = .ok raws) →
      ∃ st2 res, incrementalSync env cfg sm since s = (st2, .ok res) ∧
        st2.tasksM = s.tasksM ∧ st2.usersM = s.usersM ∧ st2.attachM = s.attachM ∧
        st2.commentM = s.commentM ∧ st2.events = s.events ∧
        (∀ pr ∈ res, ∃ win raws,
          env.iterProjectTasks pr.1 cfg.sync.page_size win = .ok raws ∧
          ((raws.map (fun r => (mapTask r).id)).Nodup →
            pr.2.skipped = raws.length))) := by
  constructor
  · intro env cfg sm s hdry hauth hiter hcomm hfile
    obtain ⟨st2, res, hloop, h1, h2, h3, h4, h5, h6⟩ :=
      initialMigrationLoop_dry hdry hauth hiter hcomm hfile sm cfg.projects [] s
    refine ⟨st2, res, hloop, h1, h2, h3, h4, h5, ?_⟩
    intro pr hpr raws hiterp hnd
    rcases h6 pr hpr with hin | hprop
    · exact absurd hin (List.not_mem_nil pr)
    · rw [hprop raws hiterp]
      exact dry_skipped_eq_fetched hnd
  · intro env cfg sm since s hdry hauth hiter hcomm hfile
    obtain ⟨st2, res, hloop, h1, h2, h3, h4, h5, h6⟩ :=
      incrementalSyncLoop_dry hdry hauth hiter hcomm hfile sm since cfg.projects [] s
    refine ⟨st2, res, hloop, h1, h2, h3, h4, h5, ?_⟩
    intro pr hpr
    rcases h6 pr hpr with hin | hprop
    · exact absurd hin (List.not_mem_nil pr)
    · obtain ⟨win, raws, hiterp, hskip⟩ := hprop
      refine ⟨win, raws, hiterp, ?_⟩
      intro hnd
      rw [hskip]
      exact dry_skipped_eq_fetched hnd

/-- Single-project mapping used by several witnesses. -/
def pmW : ProjectMapping := { megaplan_id := "p1", openproject_id := 11 }

/-- Dry-run configuration with one project. -/
def dryCfg : AppConfig :=
  { openproject := {}, projects := [pmW], sync := { dry_run := true } }

theorem claim_C7_witness :
    (∃ st2 res, initialMigration okEnv dryCfg [] ({} : St) = (st2, .ok res) ∧
      st2.tasksM = ({} : St).tasksM ∧ st2.usersM = ({} : St).usersM ∧
      st2.attachM = ({} : St).attachM ∧ st2.commentM = ({} : St).commentM ∧
      st2.events = ({} : St).events ∧
      (∀ pr ∈ res, ∀ raws,
        okEnv.iterProjectTasks pr.1 dryCfg.sync.page_size none = .ok raws →
        (raws.map (fun r => (mapTask r).id)).Nodup →
        pr.2.skipped = raws.length)) ∧
    (∃ st2 res, incrementalSync okEnv dryCfg [] none ({} : St) = (st2, .ok res) ∧
      st2.tasksM = ({} : St).tasksM ∧ st2.usersM = ({} : St).usersM ∧
      st2.attachM = ({} : St).attachM ∧ st2.commentM = ({} : St).commentM ∧
      st2.events = ({} : St).events ∧
      (∀ pr ∈ res, ∃ win raws,
        okEnv.iterProjectTasks pr.1 dryCfg.sync.page_size win = .ok raws ∧
        ((raws.map (fun r => (mapTask r).id)).Nodup →
          pr.2.skipped = raws.length))) :=
  ⟨claim_C7_dry_run_purity.1 okEnv dryCfg [] {} rfl rfl (fun _ _ _ => ⟨[], rfl⟩)
    (fun _ => ⟨[], rfl⟩) (fun _ => ⟨[], rfl⟩),
   claim_C7_dry_run_purity.2 okEnv dryCfg [] none {} rfl rfl (fun _ _ _ => ⟨[], rfl⟩)
    (fun _ => ⟨[], rfl⟩) (fun _ => ⟨[], rfl⟩)⟩

/-- Claim C3 as amended: in every successful run - full migration or
incremental sync - the end of each project's processing overwrites that
project's watermark with the then-current utcnow() value, which is at or
after (not equal to) the run's start time; this holds also for projects
whose fetch yields zero items. -/
theorem claim_C3_watermark_advanced :
    (∀ (env : Env) (cfg : AppConfig) (sm : List (String × String)) (s st2 : St)
      (res : List (String × SyncStats)),
      initialMigration env cfg sm s = (st2, .ok res) →
      ∀ m ∈ cfg.projects, ∃ t, getLastSyncM st2 m.megaplan_id = some t ∧ s.clock ≤ t) ∧
    (∀ (env : Env) (cfg : AppConfig) (sm : List (String × String)) (since : Option Nat)
      (s st2 : St) (res : List (String × SyncStats)),
      incrementalSync env cfg sm since s = (st2, .ok res) →
      ∀ m ∈ cfg.projects, ∃ t, getLastSyncM st2 m.megaplan_id = some t ∧ s.clock ≤ t) := by
  constructor
  · intro env cfg sm s st2 res hrun m hm
    exact (initialMigrationLoop_watermarks env cfg sm cfg.projects [] s st2 res hrun).1 m hm
  · intro env cfg sm since s st2 res hrun m hm
    exact (incrementalSyncLoop_watermarks env cfg sm since cfg.projects [] s st2 res hrun).1 m hm

/-- Two-project configuration, both projects with empty fetches. -/
def cfgC3 : AppConfig :=
  { openproject := {}, projects := [pmW, { megaplan_id := "p2", openproject_id := 12 }],
    sync := {} }

/-- Claim C3, counterexample: in a successful two-project run starting at
clock 0 - full migration and incremental sync alike - the second
project's watermark is written as 1, the utcnow() value at the end of
that project's processing, not the run's start time 0 (both runs
succeeded and all fetches were empty). -/
theorem claim_C3_counterexample :
    (initialMigration okEnv cfgC3 [] ({} : St)).2 =
      .ok [("p1", ({} : SyncStats)), ("p2", ({} : SyncStats))] ∧
    getLastSyncM (initialMigration okEnv cfgC3 [] ({} : St)).1 "p2" = some 1 ∧
    (incrementalSync okEnv cfgC3 [] none ({} : St)).2 =
      .ok [("p1", ({} : SyncStats)), ("p2", ({} : SyncStats))] ∧
    getLastSyncM (incrementalSync okEnv cfgC3 [] none ({} : St)).1 "p2" = some 1 ∧
    ({} : St).clock = 0 ∧ (1 : Nat) ≠ 0 := by
  refine ⟨rfl, rfl, rfl, rfl, rfl, by decide⟩

theorem claim_C3_witness :
    (∃ t, getLastSyncM (initialMigration okEnv cfgC3 [] ({} : St)).1 "p1" = some t ∧
      ({} : St).clock ≤ t) ∧
    (∃ t, getLastSyncM (incrementalSync okEnv cfgC3 [] none ({} : St)).1 "p1" = some t ∧
      ({} : St).clock ≤ t) := by
  refine ⟨?_, ?_⟩
  · exact claim_C3_watermark_advanced.1 okEnv cfgC3 []
      ({} : St) (initialMigration okEnv cfgC3 [] ({} : St)).1
      [("p1", ({} : SyncStats)), ("p2", ({} : SyncStats))] rfl pmW (by decide)
  · exact claim_C3_watermark_advanced.2 okEnv cfgC3 [] none
      ({} : St) (incrementalSync okEnv cfgC3 [] none ({} : St)).1
      [("p1", ({} : SyncStats)), ("p2", ({} : SyncStats))] rfl pmW (by decide)

theorem getTaskM_isSome_iff (s : St) (k : String) :
    (getTaskM s k).isSome = (lookupA s.tasksM k).isSome := by
  unfold getTaskM
  cases lookupA s.tasksM k <;> rfl

/-- Claim C5 as amended: a RemoteError mid-run terminates the run with the
error value (no statistics are returned: the per-project dict is a local
that the propagating exception discards; see the counterexample), and
both the task mappings and the watermarks committed before the failure
persist in the store. -/
theorem claim_C5_mappings_survive_failure :
    ∀ (env : Env) (cfg : AppConfig) (sm : List (String × String)) (since : Option Nat)
      (s : St),
      (∀ k, (getTaskM s k).isSome →
        (getTaskM (incrementalSync env cfg sm since s).1 k).isSome) ∧
      (∀ p, (getLastSyncM s p).isSome →
        (getLastSyncM (incrementalSync env cfg sm since s).1 p).isSome) := by
  intro env cfg sm since s
  obtain ⟨h1, h2⟩ := incrementalSyncLoop_preserves env cfg sm since cfg.projects [] s
  constructor
  · intro k hk
    rw [getTaskM_isSome_iff] at hk
    rw [show incrementalSync env cfg sm since s =
      incrementalSyncLoop env cfg sm since cfg.projects [] s from rfl]
    rw [getTaskM_isSome_iff]
    exact h1 k hk
  · exact h2

/-- Environment failing the fetch of the second project only. -/
def exEnvC5 : Env :=
  { okEnv with iterProjectTasks := fun p _ _ =>
      if p = "p2" then .error (.remote "fetch 500") else .ok [] }

/-- Claim C5, counterexample: the second project's fetch raises, the run
returns the error (so the accumulated statistics for the completed first
project are not returned to the caller), even though the first project
completed and its watermark was committed. -/
theorem claim_C5_counterexample :
    (incrementalSync exEnvC5 cfgC3 [] none ({} : St)).2 = .error (.remote "fetch 500") ∧
    getLastSyncM (incrementalSync exEnvC5 cfgC3 [] none ({} : St)).1 "p1" = some 0 := by
  exact ⟨rfl, rfl⟩

theorem claim_C5_witness :
    (getTaskM (incrementalSync exEnvC5 cfgC3 [] none
      { tasksM := [("t", (7, 0))], lastSyncM := [("q", 3)] }).1 "t").isSome = true ∧
    (getLastSyncM (incrementalSync exEnvC5 cfgC3 [] none
      { tasksM := [("t", (7, 0))], lastSyncM := [("q", 3)] }).1 "q").isSome = true := by
  refine ⟨(claim_C5_mappings_survive_failure exEnvC5 cfgC3 [] none _).1 "t" (by decide),
    (claim_C5_mappings_survive_failure exEnvC5 cfgC3 [] none _).2 "q" (by decide)⟩

/-- Task mapped to target id 0 in the store. -/
def zeroTask : Task :=
  { id := "zt", project_id := "", name := "n", description := "", status := "unknown" }

/-- Store holding a mapping for zeroTask whose target id is 0. -/
def zeroSt : St := { tasksM := [("zt", (0, 0))] }

/-- Claim C1, counterexample: the Identity Store holds a mapping for the
task (target id 0), yet _sync_task takes the create branch — the branch
test is Python truthiness of the stored id, not its presence — and the
stored target id changes from 0 to the created id 101. -/
theorem claim_C1_counterexample :
    lookupA zeroSt.tasksM "zt" = some (0, 0) ∧
    (syncTask okEnv exCfg [] pmW zeroTask zeroSt).2 =
      .ok { created := 1, updated := 0, skipped := 0, attachments := 0, comments := 0 } ∧
    getTaskM (syncTask okEnv exCfg [] pmW zeroTask zeroSt).1 "zt" = some 101 ∧
    (101 : Int) ≠ 0 := by
  exact ⟨rfl, rfl, rfl, by decide⟩

/-- Claim C1 as amended: (1) a task whose source id has a truthy
(non-zero) stored target id is updated, never created, and its stored
target id is unchanged after the call; (2) a task with no truthy stored
mapping is created exactly once and the mapping is upserted to the id of
the create response; (3) provided create responses carry non-zero ids,
a second full migration over identical source data performs zero creates
in every project. -/
theorem claim_C1_create_or_update :
    (∀ (env : Env) (cfg : AppConfig) (sm : List (String × String))
      (mapping : ProjectMapping) (task : Task) (s : St),
      EnvOk env → pyTruthyOptInt (getTaskM s task.id) = true →
      ∃ st2 r, syncTask env cfg sm mapping task s = (st2, .ok r) ∧
        r.created = 0 ∧ r.updated = 1 ∧ getTaskM st2 task.id = getTaskM s task.id) ∧
    (∀ (env : Env) (cfg : AppConfig) (sm : List (String × String))
      (mapping : ProjectMapping) (task : Task) (s : St),
      EnvOk env → pyTruthyOptInt (getTaskM s task.id) = false →
      ∃ st2 r, syncTask env cfg sm mapping task s = (st2, .ok r) ∧
        r.created = 1 ∧ r.updated = 0 ∧
        ∃ p cid, env.createWorkPackage p = .ok cid ∧ getTaskM st2 task.id = some cid) ∧
    (∀ (env : Env) (cfg : AppConfig) (sm : List (String × String)) (s : St),
      EnvOk env → EnvPos env →
      ∃ st1 res1 st2 res2, initialMigration env cfg sm s = (st1, .ok res1) ∧
        initialMigration env cfg sm st1 = (st2, .ok res2) ∧
        ∀ pr ∈ res2, pr.2.created = 0) := by
  refine ⟨?_, ?_, ?_⟩
  · intro env cfg sm mapping task s henv htruthy
    obtain ⟨st2, r, heq, hupd, _⟩ := syncTask_spec henv cfg sm mapping task s
    obtain ⟨h1, h2, h3⟩ := hupd htruthy
    exact ⟨st2, r, heq, h1, h2, h3⟩
  · intro env cfg sm mapping task s henv hfalsy
    obtain ⟨st2, r, heq, _, hcre⟩ := syncTask_spec henv cfg sm mapping task s
    obtain ⟨h1, h2, h3⟩ := hcre hfalsy
    exact ⟨st2, r, heq, h1, h2, h3⟩
  · intro env cfg sm s henv hpos
    obtain ⟨st1, res1, hrun1, _, hall1, _⟩ :=
      initialMigrationLoop_spec henv hpos cfg sm cfg.projects [] s
    obtain ⟨st2, res2, hrun2, _, _, hcre2⟩ :=
      initialMigrationLoop_spec henv hpos cfg sm cfg.projects [] st1
    refine ⟨st1, res1, st2, res2, hrun1, hrun2, ?_⟩
    intro pr hpr
    have hpre : cfg.sync.dry_run = true ∨ AllMapped env cfg cfg.projects st1 := by
      by_cases hdry : cfg.sync.dry_run = true
      · exact Or.inl hdry
      · have hdryf : cfg.sync.dry_run = false := by simpa using hdry
        exact Or.inr (hall1 hdryf)
    rcases hcre2 hpre pr hpr with hin | hzero
    · exact absurd hin (List.not_mem_nil pr)
    · exact hzero

/-- Task with a truthy stored mapping, for the witness. -/
def wTask : Task :=
  { id := "wt", project_id := "", name := "n", description := "", status := "unknown" }

/-- Store mapping wTask to target id 55. -/
def wSt : St := { tasksM := [("wt", (55, 0))] }

/-- Unmapped task for the witness. -/
def cTask : Task :=
  { id := "ct", project_id := "", name := "n", description := "", status := "unknown" }

theorem claim_C1_witness :
    (∃ st2 r, syncTask okEnv exCfg [] pmW wTask wSt = (st2, .ok r) ∧
      r.created = 0 ∧ r.updated = 1 ∧ getTaskM st2 wTask.id = getTaskM wSt wTask.id) ∧
    (∃ st2 r, syncTask okEnv exCfg [] pmW cTask ({} : St) = (st2, .ok r) ∧
      r.created = 1 ∧ r.updated = 0 ∧
      ∃ p cid, okEnv.createWorkPackage p = .ok cid ∧ getTaskM st2 cTask.id = some cid) ∧
    (∃ st1 res1 st2 res2, initialMigration okEnv cfgC3 [] ({} : St) = (st1, .ok res1) ∧
      initialMigration okEnv cfgC3 [] st1 = (st2, .ok res2) ∧
      ∀ pr ∈ res2, pr.2.created = 0) :=
  ⟨claim_C1_create_or_update.1 okEnv exCfg [] pmW wTask wSt okEnv_envOk (by decide),
   claim_C1_create_or_update.2.1 okEnv exCfg [] pmW cTask {} okEnv_envOk (by decide),
   claim_C1_create_or_update.2.2 okEnv cfgC3 [] {} okEnv_envOk okEnv_envPos⟩

end OMSync
